import Mathlib

/-!
Verification of the benjic/jwt JSON Web Token library against its
natural-language specification.

The repository is embedded shallowly: Go byte strings become `List Char`
(one `Char` per byte; all data handled by the theorems is ASCII), Go byte
slices become `List Nat`, and the in-place mutations that Go performs on a
`*jwt` value are made explicit by returning the updated `Jwt` record from
each operation.  JSON (de)serialization of the caller-supplied claims
payload is an external collaborator of the library (a generic
`encoding/json` codec), so it is modelled as an explicit codec parameter
`enc : α → Str` / `dec : Str → Option α`; the header, whose JSON shape is
owned by the library, is serialized and parsed concretely.
-/

namespace Jwtv

set_option maxRecDepth 100000

abbrev Str := List Char

abbrev Bytes := List Nat

/-- Error values of the library.  `malformedToken`, `badSignature` and
`algorithmNotImplemented` are the three exported errors of jwt.go;
`corruptBase64` models a `base64.CorruptInputError` escaping from the
standard library, `jsonDecodeError` a `encoding/json` error, and
`runtimePanic` marks paths on which the Go program would dereference a nil
function or key pointer. -/
inductive Err where
  | malformedToken
  | badSignature
  | algorithmNotImplemented
  | corruptBase64
  | jsonDecodeError
  | nilPrivateKey
  | runtimePanic
deriving DecidableEq

/-- The jwt header struct: `Algorithm` (json tag "alg") and `ContentType`
(json tag "typ"). -/
structure Header where
  algorithm : Str
  contentType : Str
deriving DecidableEq

/-- The internal jwt aggregate: structured header, raw base64url header
bytes, the caller's payload value (Go `interface{}`; `none` is the nil
interface), raw base64url payload bytes and the signature field. -/
structure Jwt (α : Type) where
  header : Header
  headerRaw : Str
  payload : Option α
  payloadRaw : Str
  signature : Str
deriving DecidableEq

/-- The base64url alphabet of `base64.URLEncoding`. -/
def b64Alphabet : Str :=
  "ABCDEFGHIJKLMNOPQRSTUVWXYZabcdefghijklmnopqrstuvwxyz0123456789-_".data

/-- The character for a 6-bit group. -/
def b64Chr (v : Nat) : Char := b64Alphabet.getD v 'A'

def b64ValAux : Str → Nat → Char → Option Nat
  | [], _, _ => none
  | x :: xs, i, c => if x = c then some i else b64ValAux xs (i + 1) c

/-- Index of a character in the base64url alphabet. -/
def b64Val (c : Char) : Option Nat := b64ValAux b64Alphabet 0 c

/-- `base64.URLEncoding` encoding with `=` padding (the `Encode` /
`EncodeToString` functions of the standard library). -/
def b64EncodePadded : Bytes → Str
  | [] => []
  | [a] => [b64Chr (a >>> 2), b64Chr ((a % 4) <<< 4), '=', '=']
  | [a, b] => [b64Chr (a >>> 2), b64Chr ((a % 4) <<< 4 ||| (b >>> 4)),
      b64Chr ((b % 16) <<< 2), '=']
  | a :: b :: c :: rest =>
      b64Chr (a >>> 2) :: b64Chr ((a % 4) <<< 4 ||| (b >>> 4)) ::
      b64Chr ((b % 16) <<< 2 ||| (c >>> 6)) :: b64Chr (c % 64) ::
      b64EncodePadded rest

/-- `base64.URLEncoding` decoding (the `Decode` / `DecodeString` functions):
input must consist of 4-character quanta, `=` may appear only as final
padding.  Like the (non-strict) standard decoder, trailing bits beyond the
encoded length are ignored. -/
def b64DecodePadded : Str → Option Bytes
  | [] => some []
  | a :: b :: c :: d :: rest =>
      match b64Val a, b64Val b with
      | some va, some vb =>
          if c = '=' then
            if d = '=' ∧ rest = [] then some [(va <<< 2) ||| (vb >>> 4)]
            else none
          else
            match b64Val c with
            | some vc =>
                if d = '=' then
                  if rest = [] then
                    some [(va <<< 2) ||| (vb >>> 4),
                          ((vb % 16) <<< 4) ||| (vc >>> 2)]
                  else none
                else
                  match b64Val d with
                  | some vd =>
                      (fun t => ((va <<< 2) ||| (vb >>> 4)) ::
                                (((vb % 16) <<< 4) ||| (vc >>> 2)) ::
                                (((vc % 4) <<< 6) ||| vd) :: t) <$>
                        b64DecodePadded rest
                  | none => none
            | none => none
      | _, _ => none
  | _ => none

/-- Drop leading characters satisfying a predicate (for `strings.Trim`). -/
def dropLeading (p : Char → Bool) : Str → Str
  | [] => []
  | c :: r => if p c then dropLeading p r else c :: r

/-- `strings.Trim(s, "=")`: removes leading and trailing `=` runs. -/
def trimEq (s : Str) : Str :=
  dropLeading (fun c => c = '=') ((dropLeading (fun c => c = '=') s.reverse).reverse)

/-- Unpadded base64url encoding: the spec's Base64URL Field Codec `encode`
("produces base64url without padding (trailing `=` stripped)"). -/
def b64NoPad : Bytes → Str
  | [] => []
  | [a] => [b64Chr (a >>> 2), b64Chr ((a % 4) <<< 4)]
  | [a, b] => [b64Chr (a >>> 2), b64Chr ((a % 4) <<< 4 ||| (b >>> 4)),
      b64Chr ((b % 16) <<< 2)]
  | a :: b :: c :: rest =>
      b64Chr (a >>> 2) :: b64Chr ((a % 4) <<< 4 ||| (b >>> 4)) ::
      b64Chr ((b % 16) <<< 2 ||| (c >>> 6)) :: b64Chr (c % 64) ::
      b64NoPad rest

/-- The padding step of `padB64String` (jwt.go): append `=` up to a
multiple-of-4 length. -/
def padTo4 (s : Str) : Str :=
  if s.length % 4 ≠ 0 then s ++ List.replicate (4 - s.length % 4) '=' else s

/-- `padB64String` (jwt.go 195-200): pad, then decode with
`base64.URLEncoding`. -/
def padB64String (s : Str) : Option Bytes := b64DecodePadded (padTo4 s)

/-- `strings.Split(input, ".")`. -/
def splitDot : Str → List Str
  | [] => [[]]
  | c :: rest =>
      let r := splitDot rest
      if c = '.' then [] :: r
      else (c :: r.headD []) :: r.tail

/-- The `bufio` read in `Decoder.Decode`: `ReadString(byte(' '))` returns
everything up to and including the first space (or the whole input on EOF;
the EOF error is shadowed and ignored by the caller). -/
def readToken : Str → Str
  | [] => []
  | c :: rest => if c = ' ' then [c] else c :: readToken rest

/-! ### SHA-2 (crypto/sha256, crypto/sha512) and HMAC (crypto/hmac) -/

/-- `k` bytes of `x`, big-endian. -/
def natBE : Nat → Nat → Bytes
  | 0, _ => []
  | k + 1, x => natBE k (x >>> 8) ++ [x % 256]

/-- Truncate to a 32-bit word. -/
def w32 (x : Nat) : Nat := x % 4294967296

/-- Right-rotation of a 32-bit word. -/
def rotr32 (n x : Nat) : Nat := w32 ((x >>> n) ||| (x <<< (32 - n)))

/-- Truncate to a 64-bit word. -/
def w64 (x : Nat) : Nat := x % 18446744073709551616

/-- Right-rotation of a 64-bit word. -/
def rotr64 (n x : Nat) : Nat := w64 ((x >>> n) ||| (x <<< (64 - n)))

/-- Merkle-Damgård padding shared by the SHA-2 family: append `0x80`, zero
bytes up to the length field, then the bit length over `lenBytes` bytes,
reaching a multiple of `blockBytes`. -/
def sha2Pad (blockBytes lenBytes : Nat) (msg : Bytes) : Bytes :=
  let L := msg.length
  let zeros := (blockBytes - (L + 1 + lenBytes) % blockBytes) % blockBytes
  msg ++ 128 :: List.replicate zeros 0 ++ natBE lenBytes (L * 8)

/-- Big-endian 32-bit words from bytes (length a multiple of 4). -/
def bytesToW32 : Bytes → List Nat
  | a :: b :: c :: d :: rest =>
      ((((a <<< 8) ||| b) <<< 8 ||| c) <<< 8 ||| d) :: bytesToW32 rest
  | _ => []

/-- Big-endian 64-bit words from bytes (length a multiple of 8). -/
def bytesToW64 : Bytes → List Nat
  | a :: b :: c :: d :: e :: f :: g :: h :: rest =>
      (((((((a <<< 8 ||| b) <<< 8 ||| c) <<< 8 ||| d) <<< 8 ||| e) <<< 8 |||
        f) <<< 8 ||| g) <<< 8 ||| h) :: bytesToW64 rest
  | _ => []

/-- Split a word list into 16-word blocks. -/
def toBlocks16 : List Nat → List (List Nat)
  | a1 :: a2 :: a3 :: a4 :: a5 :: a6 :: a7 :: a8 ::
    a9 :: a10 :: a11 :: a12 :: a13 :: a14 :: a15 :: a16 :: rest =>
      [a1, a2, a3, a4, a5, a6, a7, a8, a9, a10, a11, a12, a13, a14, a15, a16] ::
      toBlocks16 rest
  | _ => []

def shaK256 : List Nat :=
  [1116352408, 1899447441, 3049323471, 3921009573, 961987163, 1508970993,
   2453635748, 2870763221, 3624381080, 310598401, 607225278, 1426881987,
   1925078388, 2162078206, 2614888103, 3248222580, 3835390401, 4022224774,
   264347078, 604807628, 770255983, 1249150122, 1555081692, 1996064986,
   2554220882, 2821834349, 2952996808, 3210313671, 3336571891, 3584528711,
   113926993, 338241895, 666307205, 773529912, 1294757372, 1396182291,
   1695183700, 1986661051, 2177026350, 2456956037, 2730485921, 2820302411,
   3259730800, 3345764771, 3516065817, 3600352804, 4094571909, 275423344,
   430227734, 506948616, 659060556, 883997877, 958139571, 1322822218,
   1537002063, 1747873779, 1955562222, 2024104815, 2227730452, 2361852424,
   2428436474, 2756734187, 3204031479, 3329325298]

def shaH256 : List Nat :=
  [1779033703, 3144134277, 1013904242, 2773480762, 1359893119, 2600822924,
   528734635, 1541459225]

/-- Extend a 16-word block to the 64-word SHA-256 message schedule. -/
def sched256 (block : List Nat) : List Nat :=
  (List.range 48).foldl
    (fun w _ =>
      let n := w.length
      let x15 := w.getD (n - 15) 0
      let x2 := w.getD (n - 2) 0
      let s0 := (rotr32 7 x15) ^^^ (rotr32 18 x15) ^^^ (x15 >>> 3)
      let s1 := (rotr32 17 x2) ^^^ (rotr32 19 x2) ^^^ (x2 >>> 10)
      w ++ [w32 (w.getD (n - 16) 0 + s0 + w.getD (n - 7) 0 + s1)])
    block

/-- One SHA-256 compression round. -/
def round256 (st : List Nat) (k wv : Nat) : List Nat :=
  match st with
  | [a, b, c, d, e, f, g, h] =>
      let s1 := (rotr32 6 e) ^^^ (rotr32 11 e) ^^^ (rotr32 25 e)
      let ch := (e &&& f) ^^^ ((4294967295 ^^^ e) &&& g)
      let t1 := w32 (h + s1 + ch + k + wv)
      let s0 := (rotr32 2 a) ^^^ (rotr32 13 a) ^^^ (rotr32 22 a)
      let mj := (a &&& b) ^^^ (a &&& c) ^^^ (b &&& c)
      let t2 := w32 (s0 + mj)
      [w32 (t1 + t2), a, b, c, w32 (d + t1), e, f, g]
  | _ => st

def processBlock256 (H block : List Nat) : List Nat :=
  let w := sched256 block
  let st := (shaK256.zip w).foldl (fun st kw => round256 st kw.1 kw.2) H
  (H.zip st).map (fun p => w32 (p.1 + p.2))

/-- SHA-256 of a byte string (crypto/sha256). -/
def sha256 (msg : Bytes) : Bytes :=
  let blocks := toBlocks16 (bytesToW32 (sha2Pad 64 8 msg))
  let H := blocks.foldl processBlock256 shaH256
  H.foldr (fun wd acc => natBE 4 wd ++ acc) []

def shaK512 : List Nat :=
  [4794697086780616226, 8158064640168781261, 13096744586834688815,
   16840607885511220156, 4131703408338449720, 6480981068601479193,
   10538285296894168987, 12329834152419229976, 15566598209576043074,
   1334009975649890238, 2608012711638119052, 6128411473006802146,
   8268148722764581231, 9286055187155687089, 11230858885718282805,
   13951009754708518548, 16472876342353939154, 17275323862435702243,
   1135362057144423861, 2597628984639134821, 3308224258029322869,
   5365058923640841347, 6679025012923562964, 8573033837759648693,
   10970295158949994411, 12119686244451234320, 12683024718118986047,
   13788192230050041572, 14330467153632333762, 15395433587784984357,
   489312712824947311, 1452737877330783856, 2861767655752347644,
   3322285676063803686, 5560940570517711597, 5996557281743188959,
   7280758554555802590, 8532644243296465576, 9350256976987008742,
   10552545826968843579, 11727347734174303076, 12113106623233404929,
   14000437183269869457, 14369950271660146224, 15101387698204529176,
   15463397548674623760, 17586052441742319658, 1182934255886127544,
   1847814050463011016, 2177327727835720531, 2830643537854262169,
   3796741975233480872, 4115178125766777443, 5681478168544905931,
   6601373596472566643, 7507060721942968483, 8399075790359081724,
   8693463985226723168, 9568029438360202098, 10144078919501101548,
   10430055236837252648, 11840083180663258601, 13761210420658862357,
   14299343276471374635, 14566680578165727644, 15097957966210449927,
   16922976911328602910, 17689382322260857208, 500013540394364858,
   748580250866718886, 1242879168328830382, 1977374033974150939,
   2944078676154940804, 3659926193048069267, 4368137639120453308,
   4836135668995329356, 5532061633213252278, 6448918945643986474,
   6902733635092675308, 7801388544844847127]

def shaH512 : List Nat :=
  [7640891576956012808, 13503953896175478587, 4354685564936845355,
   11912009170470909681, 5840696475078001361, 11170449401992604703,
   2270897969802886507, 6620516959819538809]

def shaH384 : List Nat :=
  [14680500436340154072, 7105036623409894663, 10473403895298186519,
   1526699215303891257, 7436329637833083697, 10282925794625328401,
   15784041429090275239, 5167115440072839076]

/-- Extend a 16-word block to the 80-word SHA-512 message schedule. -/
def sched512 (block : List Nat) : List Nat :=
  (List.range 64).foldl
    (fun w _ =>
      let n := w.length
      let x15 := w.getD (n - 15) 0
      let x2 := w.getD (n - 2) 0
      let s0 := (rotr64 1 x15) ^^^ (rotr64 8 x15) ^^^ (x15 >>> 7)
      let s1 := (rotr64 19 x2) ^^^ (rotr64 61 x2) ^^^ (x2 >>> 6)
      w ++ [w64 (w.getD (n - 16) 0 + s0 + w.getD (n - 7) 0 + s1)])
    block

/-- One SHA-512 compression round. -/
def round512 (st : List Nat) (k wv : Nat) : List Nat :=
  match st with
  | [a, b, c, d, e, f, g, h] =>
      let s1 := (rotr64 14 e) ^^^ (rotr64 18 e) ^^^ (rotr64 41 e)
      let ch := (e &&& f) ^^^ ((18446744073709551615 ^^^ e) &&& g)
      let t1 := w64 (h + s1 + ch + k + wv)
      let s0 := (rotr64 28 a) ^^^ (rotr64 34 a) ^^^ (rotr64 39 a)
      let mj := (a &&& b) ^^^ (a &&& c) ^^^ (b &&& c)
      let t2 := w64 (s0 + mj)
      [w64 (t1 + t2), a, b, c, w64 (d + t1), e, f, g]
  | _ => st

def processBlock512 (H block : List Nat) : List Nat :=
  let w := sched512 block
  let st := (shaK512.zip w).foldl (fun st kw => round512 st kw.1 kw.2) H
  (H.zip st).map (fun p => w64 (p.1 + p.2))

def sha512Words (H0 : List Nat) (msg : Bytes) : List Nat :=
  (toBlocks16 (bytesToW64 (sha2Pad 128 16 msg))).foldl processBlock512 H0

/-- SHA-512 of a byte string (crypto/sha512). -/
def sha512 (msg : Bytes) : Bytes :=
  (sha512Words shaH512 msg).foldr (fun wd acc => natBE 8 wd ++ acc) []

/-- SHA-384 of a byte string (`sha512.New384`): SHA-512 core with its own
initial vector, truncated to 48 bytes. -/
def sha384 (msg : Bytes) : Bytes :=
  ((sha512Words shaH384 msg).foldr (fun wd acc => natBE 8 wd ++ acc) []).take 48

/-- A Go `func() hash.Hash` value together with the block size `crypto/hmac`
uses for it. -/
structure HashFn where
  f : Bytes → Bytes
  blockSize : Nat

def sha256Fn : HashFn := ⟨sha256, 64⟩

def sha384Fn : HashFn := ⟨sha384, 128⟩

def sha512Fn : HashFn := ⟨sha512, 128⟩

/-- `hmac.New(h, key)` followed by `Write(msg)` and `Sum(nil)`
(crypto/hmac); a nil key behaves as the empty key. -/
def hmac (hf : HashFn) (key msg : Bytes) : Bytes :=
  let k0 := if hf.blockSize < key.length then hf.f key else key
  let k := k0 ++ List.replicate (hf.blockSize - k0.length) 0
  hf.f ((k.map (fun b => b ^^^ 92)) ++ hf.f ((k.map (fun b => b ^^^ 54)) ++ msg))

/-! ### JSON serialization of the header (encoding/json on the `header`
struct, compacted by `json.Compact`) and its parse on decode.

The caller-supplied payload type goes through the same external
`encoding/json` machinery, which the spec scopes out ("JSON field-level
(de)serialization details beyond invoking a generic JSON encode/decode");
it is therefore a codec parameter in what follows.  The header is the
library's own struct, so its exact compact serialization
`{"alg":X,"typ":Y}` is modelled concretely, and its parse is modelled for
objects whose member values are strings (the only shapes the library
itself emits; `encoding/json` accepts further shapes that no claim
exercises). -/

def obrace : Char := '\x7b'

def cbrace : Char := '\x7d'

def hexDigitChr (n : Nat) : Char :=
  "0123456789abcdef".data.getD n '0'

/-- How `encoding/json` (with its default HTML escaping) writes one
character inside a string literal. -/
def escChar (c : Char) : Str :=
  if c = '"' then ['\\', '"']
  else if c = '\\' then ['\\', '\\']
  else if c = '\n' then ['\\', 'n']
  else if c = '\r' then ['\\', 'r']
  else if c = '\t' then ['\\', 't']
  else if c.toNat < 32 ∨ c = '<' ∨ c = '>' ∨ c = '&' then
    ['\\', 'u', hexDigitChr ((c.toNat >>> 12) % 16), hexDigitChr ((c.toNat >>> 8) % 16),
     hexDigitChr ((c.toNat >>> 4) % 16), hexDigitChr (c.toNat % 16)]
  else [c]

def escapeJson (s : Str) : Str := s.foldr (fun c acc => escChar c ++ acc) []

/-- A JSON string literal with quotes. -/
def jsonQuote (s : Str) : Str := '"' :: escapeJson s ++ ['"']

/-- The compact JSON serialization `encoding/json` produces for the header
struct: fields in declaration order with tags `alg` and `typ`. -/
def headerToJson (h : Header) : Str :=
  obrace :: jsonQuote "alg".data ++ ':' :: jsonQuote h.algorithm ++
  ',' :: jsonQuote "typ".data ++ ':' :: jsonQuote h.contentType ++ [cbrace]

def skipWs : Str → Str
  | [] => []
  | c :: r => if c = ' ' ∨ c = '\n' ∨ c = '\t' ∨ c = '\r' then skipWs r else c :: r

def hexVal (c : Char) : Nat :=
  if '0' ≤ c ∧ c ≤ '9' then c.toNat - 48
  else if 'a' ≤ c ∧ c ≤ 'f' then c.toNat - 87
  else if 'A' ≤ c ∧ c ≤ 'F' then c.toNat - 55
  else 0

/-- Parse the remainder of a JSON string literal (opening quote already
consumed), unescaping as `encoding/json` does. -/
def strLit : Str → Option (Str × Str)
  | [] => none
  | c :: rest =>
      if c = '"' then some ([], rest)
      else if c = '\\' then
        match rest with
        | 'u' :: a :: b :: cc :: d :: rest2 =>
            (fun p => (Char.ofNat ((hexVal a <<< 12) ||| (hexVal b <<< 8) |||
              (hexVal cc <<< 4) ||| hexVal d) :: p.1, p.2)) <$> strLit rest2
        | e :: rest2 =>
            match (if e = '"' ∨ e = '\\' ∨ e = '/' then some e
                   else if e = 'n' then some '\n'
                   else if e = 't' then some '\t'
                   else if e = 'r' then some '\r'
                   else if e = 'b' then some (Char.ofNat 8)
                   else if e = 'f' then some (Char.ofNat 12)
                   else none) with
            | some ch => (fun p => (ch :: p.1, p.2)) <$> strLit rest2
            | none => none
        | [] => none
      else (fun p => (c :: p.1, p.2)) <$> strLit rest

/-- Member loop of the header object: `"key" : "value"` pairs separated by
commas; `alg` and `typ` populate the struct (later duplicates win, as in
`encoding/json`), other keys are ignored. -/
def hdrMembers : Nat → Str → Header → Option Header
  | 0, _, _ => none
  | fuel + 1, cs, h =>
      match skipWs cs with
      | '"' :: r1 =>
          match strLit r1 with
          | some (key, r2) =>
              match skipWs r2 with
              | ':' :: r3 =>
                  match skipWs r3 with
                  | '"' :: r4 =>
                      match strLit r4 with
                      | some (value, r5) =>
                          let h1 := if key = "alg".data then { h with algorithm := value }
                                    else if key = "typ".data then { h with contentType := value }
                                    else h
                          match skipWs r5 with
                          | ',' :: r6 => hdrMembers fuel r6 h1
                          | c :: _ => if c = cbrace then some h1 else none
                          | [] => none
                      | none => none
                  | _ => none
              | _ => none
          | none => none
      | _ => none

/-- `json.NewDecoder(...).Decode(jwt.Header)`: parse the decoded header
bytes into the header struct.  Missing members leave the zero value;
anything the member loop cannot handle is a decode error. -/
def headerFromJson (cs : Str) : Option Header :=
  match skipWs cs with
  | c :: rest =>
      if c = obrace then
        match skipWs rest with
        | c2 :: _ =>
            if c2 = cbrace then some ⟨[], []⟩
            else hdrMembers (rest.length + 1) rest ⟨[], []⟩
        | [] => none
      else none
  | [] => none

/-! ### The token pipeline: parseJWT, the validators, Encode and Decode -/

/-- The `Algorithm` constants of algorithms.go / hs.go / rs.go / es.go. -/
def HS256 : Str := "HS256".data

def HS384 : Str := "HS384".data

def HS512 : Str := "HS512".data

def RS256 : Str := "RS256".data

def RS384 : Str := "RS384".data

def RS512 : Str := "RS512".data

def ES256 : Str := "ES256".data

def None' : Str := "none".data

/-- Modelled from the spec: `jwt.rawEncode`, the Signing-Input Builder,
whose definition is not among the provided sources (only its call sites in
jwt.go, hs.go, rs.go and es.go are).  Per spec sections 4.1/4.2 it
serializes the header and payload to compact JSON, base64url-encodes both
without padding, stores them on the token's `headerRaw`/`payloadRaw`
fields and returns them.  The caller-supplied payload is serialized by the
external `encoding/json` codec `enc`; a Go nil interface payload (as on a
freshly parsed token) serializes as JSON `null`.  The repository's own
test vectors (TestHSsign and TestEncodingSigning, which MAC exactly these
unpadded strings) pin this behaviour down. -/
def rawEncode (enc : α → Str) (j : Jwt α) : Jwt α × Str × Str :=
  let hRaw := b64NoPad ((headerToJson j.header).map Char.toNat)
  let pJson := match j.payload with
    | some p => enc p
    | none => "null".data
  let pRaw := b64NoPad (pJson.map Char.toNat)
  ({ j with headerRaw := hRaw, payloadRaw := pRaw }, hRaw, pRaw)

/-- `jwt.parseHeader` (jwt.go 142-157): base64url-decode the field (with
padding normalization), record the raw field verbatim, JSON-decode into
the header struct. -/
def parseHeader (j : Jwt α) (raw : Str) : Jwt α × Option Err :=
  match padB64String raw with
  | none => (j, some Err.corruptBase64)
  | some bytes =>
      let j1 := { j with headerRaw := raw }
      match headerFromJson (bytes.map Char.ofNat) with
      | none => (j1, some Err.malformedToken)
      | some h => ({ j1 with header := h }, none)

/-- `jwt.parsePayload` (jwt.go 184-193): record the raw field, base64url-
decode it, JSON-decode into the caller's value (modelled by `dec`). -/
def parsePayload (dec : Str → Option α) (j : Jwt α) (raw : Str) :
    Jwt α × Option α × Option Err :=
  let j1 := { j with payloadRaw := raw }
  match padB64String raw with
  | none => (j1, none, some Err.corruptBase64)
  | some bytes =>
      match dec (bytes.map Char.ofNat) with
      | none => (j1, none, some Err.jsonDecodeError)
      | some v => (j1, some v, none)

def emptyJwt : Jwt α := ⟨⟨[], []⟩, [], none, [], []⟩

/-- `parseJWT` (jwt.go 159-182): split on `.`, demand exactly 3 fields,
parse header and payload (any failure becomes `ErrMalformedToken`), store
the signature field verbatim. -/
def parseJWT (dec : Str → Option α) (input : Str) :
    Jwt α × Option α × Option Err :=
  let fields := splitDot input
  if fields.length ≠ 3 then (emptyJwt, none, some Err.malformedToken)
  else
    match parseHeader emptyJwt (fields.getD 0 []) with
    | (j1, some _) => (j1, none, some Err.malformedToken)
    | (j1, none) =>
        match parsePayload dec j1 (fields.getD 1 []) with
        | (j2, _, some _) => (j2, none, some Err.malformedToken)
        | (j2, pv, none) => ({ j2 with signature := fields.getD 2 [] }, pv, none)

/-- The `Validator` interface: `validate` and `sign`, with the token
mutation made explicit in the result. -/
structure GoValidator (α : Type) where
  validate : Jwt α → Jwt α × Bool × Option Err
  sign : Jwt α → Jwt α × Option Err

/-- `Decoder.Decode` (jwt.go 90-112): read the input token, parse it,
validate; a validator error is returned as-is, and a `false` verdict with
no error becomes `ErrBadSignature`. -/
def Decode (dec : Str → Option α) (V : GoValidator α) (input : Str) :
    Option α × Option Err :=
  match parseJWT dec (readToken input) with
  | (_, pv, some e) => (pv, some e)
  | (j, pv, none) =>
      match V.validate j with
      | (_, _, some e) => (pv, some e)
      | (_, true, none) => (pv, none)
      | (_, false, none) => (pv, some Err.badSignature)

/-- `Encoder.Encode` (jwt.go 122-140): build a fresh token with content
type "JWT", sign it, then write `rawEncode`'s header and payload and the
token's signature joined with dots. -/
def Encode (enc : α → Str) (V : GoValidator α) (p : α) : Str × Option Err :=
  let j0 : Jwt α := ⟨⟨[], "JWT".data⟩, [], some p, [], []⟩
  match V.sign j0 with
  | (_, some e) => ([], some e)
  | (j1, none) =>
      let r := rawEncode enc j1
      (r.2.1 ++ '.' :: r.2.2 ++ '.' :: j1.signature, none)

/-- The hsValidator struct of hs.go (final version): configured algorithm,
hash constructor and key. -/
structure hsValidator where
  algorithm : Str
  hashFunc : Option HashFn
  Key : Bytes

/-- `NewHSValidator` (hs.go 32-44): selects the hash for the three HS
algorithms; any other identifier silently leaves a nil `hashFunc`, and the
key starts out absent. -/
def NewHSValidator (algorithm : Str) : hsValidator :=
  let hashFunc :=
    if algorithm = HS256 then some sha256Fn
    else if algorithm = HS384 then some sha384Fn
    else if algorithm = HS512 then some sha512Fn
    else none
  ⟨algorithm, hashFunc, []⟩

/-- `hsValidator.validate` (hs.go 46-67): normalize signature padding,
pin the header algorithm to the validator's own, base64-decode the
signature, compare against the HMAC of `headerRaw ++ "." ++ payloadRaw`. -/
def hsValidator.validate (v : hsValidator) (j : Jwt α) :
    Jwt α × Bool × Option Err :=
  let b64Signature := padTo4 j.signature
  if j.header.algorithm ≠ v.algorithm then
    (j, false, some Err.algorithmNotImplemented)
  else
    match b64DecodePadded b64Signature with
    | none => (j, false, some Err.malformedToken)
    | some sig =>
        match v.hashFunc with
        | none => (j, false, some Err.runtimePanic)
        | some hf =>
            let magicString := j.headerRaw ++ '.' :: j.payloadRaw
            (j, decide (sig = hmac hf v.Key (magicString.map Char.toNat)), none)

/-- `hsValidator.sign` (hs.go 69-79): set the algorithm, refresh the raw
fields via `rawEncode`, MAC them, store the padded base64url MAC. -/
def hsValidator.sign (enc : α → Str) (v : hsValidator) (j : Jwt α) :
    Jwt α × Option Err :=
  match v.hashFunc with
  | none => (j, some Err.runtimePanic)
  | some hf =>
      let j1 := { j with header := { j.header with algorithm := v.algorithm } }
      let r := rawEncode enc j1
      let mac := hmac hf v.Key ((r.2.1 ++ '.' :: r.2.2).map Char.toNat)
      ({ r.1 with signature := b64EncodePadded mac }, none)

def hsGoValidator (enc : α → Str) (v : hsValidator) : GoValidator α :=
  ⟨fun j => hsValidator.validate v j, fun j => hsValidator.sign enc v j⟩

/-- `nonevalidator.validate` (part_006 42-45): NOOP validation, always
`(true, nil)`. -/
def nonevalidator.validate (j : Jwt α) : Jwt α × Bool × Option Err :=
  (j, true, none)

/-- `nonevalidator.sign` (part_006 47-54): set algorithm "none" and an
empty signature. -/
def nonevalidator.sign (j : Jwt α) : Jwt α × Option Err :=
  ({ j with header := { j.header with algorithm := None' }, signature := [] }, none)

def noneGoValidator : GoValidator α := ⟨nonevalidator.validate, nonevalidator.sign⟩

/-- `nonevalidator.validate` of the algorithms.go stage (69-72), whose
interface also passes the key: still always `(true, nil)`. -/
def nonevalidatorValidateKeyed (j : Jwt α) (key : Bytes) :
    Jwt α × Bool × Option Err :=
  (j, true, none)

/-- The validators `getvalidator` (algorithms.go 54-67) can return. -/
inductive stageValidator where
  | hs (hashFunc : HashFn)
  | noneV

/-- `getvalidator` (algorithms.go 54-67): the algorithm registry; HS256,
HS384, HS512 and none are known, everything else is
`ErrAlgorithmNotImplemented`. -/
def getvalidator (alg : Str) : Option stageValidator × Option Err :=
  if alg = HS256 then (some (stageValidator.hs sha256Fn), none)
  else if alg = HS384 then (some (stageValidator.hs sha384Fn), none)
  else if alg = HS512 then (some (stageValidator.hs sha512Fn), none)
  else if alg = None' then (some stageValidator.noneV, none)
  else (none, some Err.algorithmNotImplemented)

/-! ### RSA PKCS#1 v1.5 (rs.go) and the ECDSA signature packing (es.go) -/

/-- Big-endian bytes to a natural number. -/
def beBytesToNat (bs : Bytes) : Nat := bs.foldl (fun a b => a * 256 + b) 0

def bitLenAux : Nat → Nat → Nat
  | 0, _ => 0
  | fuel + 1, x => if x = 0 then 0 else bitLenAux fuel (x >>> 1) + 1

/-- `big.Int.BitLen`. -/
def bitLen (x : Nat) : Nat := bitLenAux x x

def powModAux : Nat → Nat → Nat → Nat → Nat
  | 0, _, _, n => 1 % n
  | fuel + 1, b, e, n =>
      if e = 0 then 1 % n
      else
        let r := powModAux fuel b (e / 2) n
        let r2 := r * r % n
        if e % 2 = 1 then r2 * b % n else r2

/-- Modular exponentiation (the `c = s^e mod n` of RSA). -/
def powMod (b e n : Nat) : Nat := powModAux e b e n

/-- `big.Int.Bytes`: minimal big-endian bytes, empty for zero. -/
def natBytesAux : Nat → Nat → Bytes
  | 0, _ => []
  | fuel + 1, x => if x = 0 then [] else natBytesAux fuel (x >>> 8) ++ [x % 256]

def natBytes (x : Nat) : Bytes := natBytesAux x x

/-- A `crypto.Hash` value as rs.go uses it: hash function plus the DER
DigestInfo header PKCS#1 v1.5 prescribes for it. -/
structure CryptoHash where
  f : Bytes → Bytes
  derInfo : Bytes

def cryptoSHA256 : CryptoHash :=
  ⟨sha256, [48, 49, 48, 13, 6, 9, 96, 134, 72, 1, 101, 3, 4, 2, 1, 5, 0, 4, 32]⟩

def cryptoSHA384 : CryptoHash :=
  ⟨sha384, [48, 65, 48, 13, 6, 9, 96, 134, 72, 1, 101, 3, 4, 2, 2, 5, 0, 4, 48]⟩

def cryptoSHA512 : CryptoHash :=
  ⟨sha512, [48, 81, 48, 13, 6, 9, 96, 134, 72, 1, 101, 3, 4, 2, 3, 5, 0, 4, 64]⟩

structure rsaPublicKey where
  n : Nat
  e : Nat

structure rsaPrivateKey where
  n : Nat
  e : Nat
  d : Nat

/-- The RSValidator struct of rs.go (second version). -/
structure RSValidator where
  algorithm : Str
  hashType : Option CryptoHash
  PublicKey : Option rsaPublicKey
  PrivateKey : Option rsaPrivateKey

/-- `NewRSValidator` (rs.go 127-142): selects the hash for RS256/384/512,
any other identifier yields `ErrAlgorithmNotImplemented` (together with
the partially initialized validator). -/
def NewRSValidator (algorithm : Str) : RSValidator × Option Err :=
  let v : RSValidator := ⟨algorithm, none, none, none⟩
  if algorithm = RS256 then ({ v with hashType := some cryptoSHA256 }, none)
  else if algorithm = RS384 then ({ v with hashType := some cryptoSHA384 }, none)
  else if algorithm = RS512 then ({ v with hashType := some cryptoSHA512 }, none)
  else (v, some Err.algorithmNotImplemented)

/-- The PKCS#1 v1.5 encoded message `00 01 FF..FF 00 ‖ DigestInfo ‖ hash`
for a `k`-byte modulus; `none` when the modulus is too small. -/
def pkcs1v15EM (k : Nat) (derInfo hash : Bytes) : Option Bytes :=
  let T := derInfo ++ hash
  if k < T.length + 11 then none
  else some (0 :: 1 :: List.replicate (k - T.length - 3) 255 ++ 0 :: T)

/-- `rsa.VerifyPKCS1v15`: recompute the expected encoded message and
compare it with `sig^e mod n`. -/
def rsaVerifyPKCS1v15 (pub : rsaPublicKey) (derInfo hash sig : Bytes) : Bool :=
  let k := (bitLen pub.n + 7) / 8
  match pkcs1v15EM k derInfo hash with
  | none => false
  | some em =>
      decide (sig.length = k) &&
      decide (natBE k (powMod (beBytesToNat sig) pub.e pub.n) = em)

/-- `rsa.SignPKCS1v15`: `em^d mod n` over the encoded message; `none` is
the error case (modulus too small). -/
def rsaSignPKCS1v15 (priv : rsaPrivateKey) (derInfo hash : Bytes) : Option Bytes :=
  let k := (bitLen priv.n + 7) / 8
  (pkcs1v15EM k derInfo hash).map fun em =>
    natBE k (powMod (beBytesToNat em) priv.d priv.n)

/-- `RSValidator.validate` (rs.go 144-170): fail with `ErrBadSignature` on
a nil public key; otherwise *overwrite* the token's algorithm with the
validator's own and re-run `rawEncode` (regenerating the raw fields),
strictly base64-decode the signature (no padding normalization), hash the
regenerated signing input and RSA-verify. -/
def RSValidator.validate (enc : α → Str) (v : RSValidator) (j : Jwt α) :
    Jwt α × Bool × Option Err :=
  match v.PublicKey with
  | none => (j, false, some Err.badSignature)
  | some pub =>
      let j1 := { j with header := { j.header with algorithm := v.algorithm } }
      let j2 := (rawEncode enc j1).1
      match b64DecodePadded j2.signature with
      | none => (j2, false, some Err.corruptBase64)
      | some sig =>
          match v.hashType with
          | none => (j2, false, some Err.runtimePanic)
          | some ht =>
              let hash := ht.f ((j2.headerRaw ++ '.' :: j2.payloadRaw).map Char.toNat)
              if rsaVerifyPKCS1v15 pub ht.derInfo hash sig then (j2, true, none)
              else (j2, false, some Err.badSignature)

/-- `RSValidator.sign` (rs.go 172-184): set the algorithm, refresh the raw
fields, hash the signing input, RSA-sign (the error return of
`rsa.SignPKCS1v15` is discarded), store the `=`-trimmed base64url
signature. -/
def RSValidator.sign (enc : α → Str) (v : RSValidator) (j : Jwt α) :
    Jwt α × Option Err :=
  match v.PrivateKey with
  | none => (j, some Err.runtimePanic)
  | some priv =>
      let j1 := { j with header := { j.header with algorithm := v.algorithm } }
      let j2 := (rawEncode enc j1).1
      match v.hashType with
      | none => (j2, some Err.runtimePanic)
      | some ht =>
          let hash := ht.f ((j2.headerRaw ++ '.' :: j2.payloadRaw).map Char.toNat)
          let sigBytes := (rsaSignPKCS1v15 priv ht.derInfo hash).getD []
          ({ j2 with signature := trimEq (b64EncodePadded sigBytes) }, none)

def rsGoValidator (enc : α → Str) (v : RSValidator) : GoValidator α :=
  ⟨fun j => RSValidator.validate enc v j, fun j => RSValidator.sign enc v j⟩

/-- The ESValidator struct of es.go. -/
structure ESValidator where
  algorithm : Str
  hashType : Option CryptoHash

/-- `NewESValidator` (es.go 39-50): only ES256 is wired; anything else is
`ErrAlgorithmNotImplemented`. -/
def NewESValidator (algorithm : Str) : ESValidator × Option Err :=
  let v : ESValidator := ⟨algorithm, none⟩
  if algorithm = ES256 then ({ v with hashType := some cryptoSHA256 }, none)
  else (v, some Err.algorithmNotImplemented)

/-- The signature packing of `ESValidator.sign` (es.go 67-68 and
part_009 72-73): `signature := r.Bytes(); append(signature, s.Bytes()...)`
— the minimal big-endian bytes of r followed by those of s, with no
zero-padding to the curve width. -/
def esPackSignature (r s : Nat) : Bytes := natBytes r ++ natBytes s

/-- The signature stored on the token by `ESValidator.sign` (es.go 70-71):
padded base64url of the packed bytes. -/
def esEncodeSignature (r s : Nat) : Str := b64EncodePadded (esPackSignature r s)

/-! ### Auxiliary notions and concrete instances used by the theorems -/

/-- Printable ASCII that `encoding/json` writes verbatim inside a string
literal (no escaping). -/
def goodChar (c : Char) : Bool :=
  32 ≤ c.toNat && c.toNat < 127 &&
  !(c = '"') && !(c = '\\') && !(c = '<') && !(c = '>') && !(c = '&')

def goodStr (s : Str) : Bool := s.all goodChar

/-- A concrete payload codec instance: the `encoding/json` behaviour on Go's
`struct{}{}`, which marshals to `{}` and unmarshals from exactly that. -/
def unitEnc : Unit → Str := fun _ => "\x7b\x7d".data

def unitDec : Str → Option Unit :=
  fun s => if s = "\x7b\x7d".data then some () else none

def bogokey : Bytes := "bogokey".data.map Char.toNat

/-- The parsed token of the repository's TestHSvalidate: header/payload raws
`{"alg":"HS256","typ":"JWT"}` / `{"sub":"1234567890"}` and the valid
"bogokey" signature. -/
def hsTestToken : Jwt Unit :=
  ⟨⟨HS256, "JWT".data⟩,
   "eyJhbGciOiJIUzI1NiIsInR5cCI6IkpXVCJ9".data, none,
   "eyJzdWIiOiIxMjM0NTY3ODkwIn0".data,
   "Ayw1D-27S5W4XfiP-nFRm_BxSpN-v_cqlWUiwszjAB8".data⟩

/-- A token whose raw fields are short opaque strings and whose signature
is the HMAC-SHA256 computed with the *empty* key over them. -/
def emptyKeyToken : Jwt Unit :=
  ⟨⟨HS256, "JWT".data⟩, "hh".data, none, "pp".data,
   b64EncodePadded (hmac sha256Fn []
     (("hh".data ++ '.' :: "pp".data).map Char.toNat))⟩

/-- A 512-bit RSA test key (p·q with e = 65537). -/
def rsaTestN : Nat := 9841590266769238001692412974824652808934629250437724636478563567326487626745838708699387510084197100783082087270554929671715962186656383696457111382146637

def rsaTestE : Nat := 65537

def rsaTestD : Nat := 9086242920356535754892699267096682294127097853979208761148792983630983823359298904912500102914595006407876748736381842939372138822359561447834045061647509

def rsPrivValidator : RSValidator :=
  { (NewRSValidator RS256).1 with PrivateKey := some ⟨rsaTestN, rsaTestE, rsaTestD⟩ }

def rsPubValidator : RSValidator :=
  { (NewRSValidator RS256).1 with PublicKey := some ⟨rsaTestN, rsaTestE⟩ }

/-- A parsed-style token (payload value absent, raws captured from the
wire) presented to the RS validator: header declares "none", signature is
not base64. -/
def rsFrameToken : Jwt Unit :=
  ⟨⟨None', "JWT".data⟩, "AAAA".data, none, "BBBB".data, "!!!".data⟩

/-- A validator whose `validate` returns `(false, nil)` on every token
(the shape `TestValidator` in jwt_test.go has, with `nil` in place of its
error). -/
def constFalseValidator : GoValidator Unit :=
  ⟨fun j => (j, false, none), fun j => (j, none)⟩

/-! ## Lemmas -/

theorem shiftLeft_lor_eq_add (x y k : Nat) (hy : y < 2 ^ k) :
    (x <<< k) ||| y = x * 2 ^ k + y := by
  apply Nat.eq_of_testBit_eq
  intro i
  rw [Nat.testBit_lor, Nat.testBit_shiftLeft]
  rcases Nat.lt_or_ge i k with hik | hik
  · have h1 : ¬ k ≤ i := Nat.not_le.mpr hik
    have hdiv : (x * 2 ^ k + y) / 2 ^ i % 2 = y / 2 ^ i % 2 := by
      have hk : k - i + i = k := by omega
      have hsplit : x * 2 ^ k + y = 2 ^ i * (x * 2 ^ (k - i - 1) * 2) + y := by
        have h2 : 2 ^ i * (x * 2 ^ (k - i - 1) * 2) = x * (2 ^ (k - i - 1) * 2 * 2 ^ i) := by
          ring
        have h3 : 2 ^ (k - i - 1) * 2 * 2 ^ i = 2 ^ k := by
          rw [← Nat.pow_succ, ← Nat.pow_add]
          congr 1
          omega
        rw [h2, h3]
      rw [hsplit, Nat.mul_add_div (Nat.pos_pow_of_pos i (by omega)),
        Nat.add_comm, Nat.add_mul_mod_self_right]
    simp [h1, Nat.testBit_to_div_mod, hdiv]
  · have hylt : y < 2 ^ i :=
      Nat.lt_of_lt_of_le hy (Nat.pow_le_pow_right (by omega) hik)
    have hdiv : (x * 2 ^ k + y) / 2 ^ i = x / 2 ^ (i - k) := by
      have hpow : (2 : Nat) ^ i = 2 ^ k * 2 ^ (i - k) := by
        rw [← Nat.pow_add]
        congr 1
        omega
      have hswap : x * 2 ^ k + y = 2 ^ k * x + y := by ring
      rw [hpow, ← Nat.div_div_eq_div_mul, hswap,
        Nat.mul_add_div (Nat.pos_pow_of_pos k (by omega)),
        Nat.div_eq_of_lt hy, Nat.add_zero]
    have hy0 : y / 2 ^ i = 0 := Nat.div_eq_of_lt hylt
    simp [hik, Nat.testBit_to_div_mod, hdiv, hy0]

theorem b64Chr_ne_of_lt :
    ∀ v, v < 64 → b64Chr v ≠ '.' ∧ b64Chr v ≠ '=' ∧ b64Chr v ≠ ' ' := by
  decide

theorem b64Chr_ne_any (v : Nat) :
    b64Chr v ≠ '.' ∧ b64Chr v ≠ '=' ∧ b64Chr v ≠ ' ' := by
  rcases Nat.lt_or_ge v 64 with h | h
  · exact b64Chr_ne_of_lt v h
  · have : b64Chr v = 'A' := by
      unfold b64Chr
      apply List.getD_eq_default
      simpa [b64Alphabet] using h
    rw [this]
    refine ⟨by decide, by decide, by decide⟩

theorem b64Val_b64Chr : ∀ v, v < 64 → b64Val (b64Chr v) = some v := by
  decide

theorem decode_encode_quantum (a b c : Nat) (rest : Str)
    (ha : a < 256) (hb : b < 256) (hc : c < 256) :
    b64DecodePadded (b64Chr (a >>> 2) :: b64Chr ((a % 4) <<< 4 ||| (b >>> 4)) ::
      b64Chr ((b % 16) <<< 2 ||| (c >>> 6)) :: b64Chr (c % 64) :: rest) =
    (fun t => a :: b :: c :: t) <$> b64DecodePadded rest := by
  have e1 : a >>> 2 = a / 4 := by
    rw [Nat.shiftRight_eq_div_pow]
  have e2 : (a % 4) <<< 4 ||| (b >>> 4) = (a % 4) * 16 + b / 16 := by
    have h : b >>> 4 < 2 ^ 4 := by
      rw [Nat.shiftRight_eq_div_pow]
      omega
    rw [shiftLeft_lor_eq_add _ _ _ h, Nat.shiftRight_eq_div_pow]
    norm_num
  have e3 : (b % 16) <<< 2 ||| (c >>> 6) = (b % 16) * 4 + c / 64 := by
    have h : c >>> 6 < 2 ^ 2 := by
      rw [Nat.shiftRight_eq_div_pow]
      omega
    rw [shiftLeft_lor_eq_add _ _ _ h, Nat.shiftRight_eq_div_pow]
    norm_num
  have hv1 : a / 4 < 64 := by omega
  have hv2 : (a % 4) * 16 + b / 16 < 64 := by omega
  have hv3 : (b % 16) * 4 + c / 64 < 64 := by omega
  have hv4 : c % 64 < 64 := by omega
  have d1 : ((a / 4) <<< 2) ||| (((a % 4) * 16 + b / 16) >>> 4) = a := by
    have hy : ((a % 4) * 16 + b / 16) >>> 4 = a % 4 := by
      rw [Nat.shiftRight_eq_div_pow]
      omega
    rw [hy, shiftLeft_lor_eq_add _ _ _ (show a % 4 < 2 ^ 2 by omega)]
    omega
  have d2 : ((((a % 4) * 16 + b / 16) % 16) <<< 4) |||
      (((b % 16) * 4 + c / 64) >>> 2) = b := by
    have hx : ((a % 4) * 16 + b / 16) % 16 = b / 16 := by omega
    have hy : ((b % 16) * 4 + c / 64) >>> 2 = b % 16 := by
      rw [Nat.shiftRight_eq_div_pow]
      omega
    rw [hx, hy, shiftLeft_lor_eq_add _ _ _ (show b % 16 < 2 ^ 4 by omega)]
    omega
  have d3 : ((((b % 16) * 4 + c / 64) % 4) <<< 6) ||| (c % 64) = c := by
    have hx : ((b % 16) * 4 + c / 64) % 4 = c / 64 := by omega
    rw [hx, shiftLeft_lor_eq_add _ _ _ (show c % 64 < 2 ^ 6 by omega)]
    omega
  rw [e1, e2, e3]
  simp only [b64DecodePadded, b64Val_b64Chr _ hv1, b64Val_b64Chr _ hv2,
    b64Val_b64Chr _ hv3, b64Val_b64Chr _ hv4,
    (b64Chr_ne_of_lt _ hv3).2.1, (b64Chr_ne_of_lt _ hv4).2.1,
    if_neg (b64Chr_ne_of_lt _ hv3).2.1, if_neg (b64Chr_ne_of_lt _ hv4).2.1]
  simp [d1, d2, d3]

/-- Base64 (padded) round trip. -/
theorem b64DecodePadded_b64EncodePadded (bs : Bytes) (h : ∀ b ∈ bs, b < 256) :
    b64DecodePadded (b64EncodePadded bs) = some bs := by
  induction bs using b64EncodePadded.induct with
  | case1 =>
      simp [b64EncodePadded, b64DecodePadded]
  | case2 a =>
      have ha : a < 256 := h a (by simp)
      have e2 : (a % 4) <<< 4 = (a % 4) * 16 := by
        rw [Nat.shiftLeft_eq]
      have hv1 : a >>> 2 < 64 := by
        rw [Nat.shiftRight_eq_div_pow]
        omega
      have hv2 : (a % 4) * 16 < 64 := by omega
      have d1 : ((a >>> 2) <<< 2) ||| (((a % 4) * 16) >>> 4) = a := by
        have hy : ((a % 4) * 16) >>> 4 = a % 4 := by
          rw [Nat.shiftRight_eq_div_pow]
          omega
        rw [hy, Nat.shiftRight_eq_div_pow,
          shiftLeft_lor_eq_add _ _ _ (show a % 4 < 2 ^ 2 by omega)]
        omega
      simp only [b64EncodePadded, e2]
      simp only [b64DecodePadded, b64Val_b64Chr _ hv1, b64Val_b64Chr _ hv2]
      simp [d1]
  | case3 a b =>
      have ha : a < 256 := h a (by simp)
      have hb : b < 256 := h b (by simp)
      have e2 : (a % 4) <<< 4 ||| (b >>> 4) = (a % 4) * 16 + b / 16 := by
        have hx : b >>> 4 < 2 ^ 4 := by
          rw [Nat.shiftRight_eq_div_pow]
          omega
        rw [shiftLeft_lor_eq_add _ _ _ hx, Nat.shiftRight_eq_div_pow]
        norm_num
      have e3 : (b % 16) <<< 2 = (b % 16) * 4 := by
        rw [Nat.shiftLeft_eq]
      have hv1 : a >>> 2 < 64 := by
        rw [Nat.shiftRight_eq_div_pow]
        omega
      have hv2 : (a % 4) * 16 + b / 16 < 64 := by omega
      have hv3 : (b % 16) * 4 < 64 := by omega
      have d1 : ((a >>> 2) <<< 2) ||| (((a % 4) * 16 + b / 16) >>> 4) = a := by
        have hy : ((a % 4) * 16 + b / 16) >>> 4 = a % 4 := by
          rw [Nat.shiftRight_eq_div_pow]
          omega
        rw [hy, Nat.shiftRight_eq_div_pow,
          shiftLeft_lor_eq_add _ _ _ (show a % 4 < 2 ^ 2 by omega)]
        omega
      have d2 : ((((a % 4) * 16 + b / 16) % 16) <<< 4) |||
          (((b % 16) * 4) >>> 2) = b := by
        have hx : ((a % 4) * 16 + b / 16) % 16 = b / 16 := by omega
        have hy : ((b % 16) * 4) >>> 2 = b % 16 := by
          rw [Nat.shiftRight_eq_div_pow]
          omega
        rw [hx, hy, shiftLeft_lor_eq_add _ _ _ (show b % 16 < 2 ^ 4 by omega)]
        omega
      simp only [b64EncodePadded, e2, e3]
      simp only [b64DecodePadded, b64Val_b64Chr _ hv1, b64Val_b64Chr _ hv2,
        b64Val_b64Chr _ hv3,
        if_neg (b64Chr_ne_of_lt _ hv3).2.1]
      simp [d1, d2]
  | case4 a b c rest ih =>
      have ha : a < 256 := h a (by simp)
      have hb : b < 256 := h b (by simp)
      have hc : c < 256 := h c (by simp)
      have hrest : ∀ x ∈ rest, x < 256 := fun x hx => h x (by simp [hx])
      simp only [b64EncodePadded]
      rw [decode_encode_quantum a b c _ ha hb hc, ih hrest]
      rfl

theorem padTo4_cons4 (c1 c2 c3 c4 : Char) (t : Str) :
    padTo4 (c1 :: c2 :: c3 :: c4 :: t) = c1 :: c2 :: c3 :: c4 :: padTo4 t := by
  have hmod : (t.length + 4) % 4 = t.length % 4 := by omega
  by_cases h : t.length % 4 = 0
  · simp [padTo4, h, hmod]
  · simp [padTo4, h, hmod]

/-- Unpadded base64 followed by padding normalization and strict decode
recovers the bytes: the codec round trip of the wire fields. -/
theorem padB64String_b64NoPad (bs : Bytes) (h : ∀ b ∈ bs, b < 256) :
    padB64String (b64NoPad bs) = some bs := by
  induction bs using b64NoPad.induct with
  | case1 =>
      simp [b64NoPad, padB64String, padTo4, b64DecodePadded]
  | case2 a =>
      have ha : a < 256 := h a (by simp)
      have e2 : (a % 4) <<< 4 = (a % 4) * 16 := by
        rw [Nat.shiftLeft_eq]
      have hv1 : a >>> 2 < 64 := by
        rw [Nat.shiftRight_eq_div_pow]
        omega
      have hv2 : (a % 4) * 16 < 64 := by omega
      have d1 : ((a >>> 2) <<< 2) ||| (((a % 4) * 16) >>> 4) = a := by
        have hy : ((a % 4) * 16) >>> 4 = a % 4 := by
          rw [Nat.shiftRight_eq_div_pow]
          omega
        rw [hy, Nat.shiftRight_eq_div_pow,
          shiftLeft_lor_eq_add _ _ _ (show a % 4 < 2 ^ 2 by omega)]
        omega
      simp only [b64NoPad, e2, padB64String, padTo4, List.length]
      norm_num
      simp only [b64DecodePadded, b64Val_b64Chr _ hv1, b64Val_b64Chr _ hv2]
      simp [d1]
  | case3 a b =>
      have ha : a < 256 := h a (by simp)
      have hb : b < 256 := h b (by simp)
      have e2 : (a % 4) <<< 4 ||| (b >>> 4) = (a % 4) * 16 + b / 16 := by
        have hx : b >>> 4 < 2 ^ 4 := by
          rw [Nat.shiftRight_eq_div_pow]
          omega
        rw [shiftLeft_lor_eq_add _ _ _ hx, Nat.shiftRight_eq_div_pow]
        norm_num
      have e3 : (b % 16) <<< 2 = (b % 16) * 4 := by
        rw [Nat.shiftLeft_eq]
      have hv1 : a >>> 2 < 64 := by
        rw [Nat.shiftRight_eq_div_pow]
        omega
      have hv2 : (a % 4) * 16 + b / 16 < 64 := by omega
      have hv3 : (b % 16) * 4 < 64 := by omega
      have d1 : ((a >>> 2) <<< 2) ||| (((a % 4) * 16 + b / 16) >>> 4) = a := by
        have hy : ((a % 4) * 16 + b / 16) >>> 4 = a % 4 := by
          rw [Nat.shiftRight_eq_div_pow]
          omega
        rw [hy, Nat.shiftRight_eq_div_pow,
          shiftLeft_lor_eq_add _ _ _ (show a % 4 < 2 ^ 2 by omega)]
        omega
      have d2 : ((((a % 4) * 16 + b / 16) % 16) <<< 4) |||
          (((b % 16) * 4) >>> 2) = b := by
        have hx : ((a % 4) * 16 + b / 16) % 16 = b / 16 := by omega
        have hy : ((b % 16) * 4) >>> 2 = b % 16 := by
          rw [Nat.shiftRight_eq_div_pow]
          omega
        rw [hx, hy, shiftLeft_lor_eq_add _ _ _ (show b % 16 < 2 ^ 4 by omega)]
        omega
      simp only [b64NoPad, e2, e3, padB64String, padTo4, List.length]
      norm_num
      simp only [b64DecodePadded, b64Val_b64Chr _ hv1, b64Val_b64Chr _ hv2,
        b64Val_b64Chr _ hv3,
        if_neg (b64Chr_ne_of_lt _ hv3).2.1]
      simp [d1, d2]
  | case4 a b c rest ih =>
      have ha : a < 256 := h a (by simp)
      have hb : b < 256 := h b (by simp)
      have hc : c < 256 := h c (by simp)
      have hrest : ∀ x ∈ rest, x < 256 := fun x hx => h x (by simp [hx])
      simp only [b64NoPad, padB64String, padTo4_cons4]
      rw [decode_encode_quantum a b c _ ha hb hc]
      have := ih hrest
      simp only [padB64String] at this
      rw [this]
      rfl

theorem length_b64EncodePadded_mod4 (bs : Bytes) :
    (b64EncodePadded bs).length % 4 = 0 := by
  induction bs using b64EncodePadded.induct with
  | case1 => simp [b64EncodePadded]
  | case2 a => simp [b64EncodePadded]
  | case3 a b => simp [b64EncodePadded]
  | case4 a b c rest ih =>
      simp only [b64EncodePadded, List.length]
      omega

theorem padTo4_eq_self (s : Str) (h : s.length % 4 = 0) : padTo4 s = s := by
  simp [padTo4, h]

theorem mem_b64NoPad_ne (bs : Bytes) :
    ∀ ch ∈ b64NoPad bs, ch ≠ '.' ∧ ch ≠ '=' ∧ ch ≠ ' ' := by
  induction bs using b64NoPad.induct with
  | case1 => simp [b64NoPad]
  | case2 a =>
      intro ch hch
      simp only [b64NoPad, List.mem_cons, List.not_mem_nil, or_false] at hch
      rcases hch with h1 | h1 <;> (subst h1; exact b64Chr_ne_any _)
  | case3 a b =>
      intro ch hch
      simp only [b64NoPad, List.mem_cons, List.not_mem_nil, or_false] at hch
      rcases hch with h1 | h1 | h1 <;> (subst h1; exact b64Chr_ne_any _)
  | case4 a b c rest ih =>
      intro ch hch
      simp only [b64NoPad, List.mem_cons] at hch
      rcases hch with h1 | h1 | h1 | h1 | h1
      · subst h1; exact b64Chr_ne_any _
      · subst h1; exact b64Chr_ne_any _
      · subst h1; exact b64Chr_ne_any _
      · subst h1; exact b64Chr_ne_any _
      · exact ih ch h1

theorem mem_b64EncodePadded_ne (bs : Bytes) :
    ∀ ch ∈ b64EncodePadded bs, ch ≠ '.' ∧ ch ≠ ' ' := by
  induction bs using b64EncodePadded.induct with
  | case1 => simp [b64EncodePadded]
  | case2 a =>
      intro ch hch
      simp only [b64EncodePadded, List.mem_cons, List.not_mem_nil, or_false] at hch
      rcases hch with h1 | h1 | h1 | h1
      · subst h1; exact ⟨(b64Chr_ne_any _).1, (b64Chr_ne_any _).2.2⟩
      · subst h1; exact ⟨(b64Chr_ne_any _).1, (b64Chr_ne_any _).2.2⟩
      · subst h1; refine ⟨by decide, by decide⟩
      · subst h1; refine ⟨by decide, by decide⟩
  | case3 a b =>
      intro ch hch
      simp only [b64EncodePadded, List.mem_cons, List.not_mem_nil, or_false] at hch
      rcases hch with h1 | h1 | h1 | h1
      · subst h1; exact ⟨(b64Chr_ne_any _).1, (b64Chr_ne_any _).2.2⟩
      · subst h1; exact ⟨(b64Chr_ne_any _).1, (b64Chr_ne_any _).2.2⟩
      · subst h1; exact ⟨(b64Chr_ne_any _).1, (b64Chr_ne_any _).2.2⟩
      · subst h1; refine ⟨by decide, by decide⟩
  | case4 a b c rest ih =>
      intro ch hch
      simp only [b64EncodePadded, List.mem_cons] at hch
      rcases hch with h1 | h1 | h1 | h1 | h1
      · subst h1; exact ⟨(b64Chr_ne_any _).1, (b64Chr_ne_any _).2.2⟩
      · subst h1; exact ⟨(b64Chr_ne_any _).1, (b64Chr_ne_any _).2.2⟩
      · subst h1; exact ⟨(b64Chr_ne_any _).1, (b64Chr_ne_any _).2.2⟩
      · subst h1; exact ⟨(b64Chr_ne_any _).1, (b64Chr_ne_any _).2.2⟩
      · exact ih ch h1

theorem splitDot_of_not_mem (s : Str) (h : '.' ∉ s) : splitDot s = [s] := by
  induction s with
  | nil => simp [splitDot]
  | cons c rest ih =>
      have hc : c ≠ '.' := fun e => h (by simp [e])
      have hrest : '.' ∉ rest := fun e => h (by simp [e])
      simp [splitDot, hc, ih hrest]

theorem splitDot_append (a t : Str) (ha : '.' ∉ a) :
    splitDot (a ++ '.' :: t) = a :: splitDot t := by
  induction a with
  | nil => simp [splitDot]
  | cons c rest ih =>
      have hc : c ≠ '.' := fun e => ha (by simp [e])
      have hrest : '.' ∉ rest := fun e => ha (by simp [e])
      simp [splitDot, hc, ih hrest]

theorem readToken_of_not_mem (s : Str) (h : ' ' ∉ s) : readToken s = s := by
  induction s with
  | nil => simp [readToken]
  | cons c rest ih =>
      have hc : c ≠ ' ' := fun e => h (by simp [e])
      have hrest : ' ' ∉ rest := fun e => h (by simp [e])
      simp [readToken, hc, ih hrest]

theorem goodChar_spec (c : Char) (h : goodChar c = true) :
    c ≠ '"' ∧ c ≠ '\\' ∧ c ≠ '\n' ∧ c ≠ '\r' ∧ c ≠ '\t' ∧
    ¬ (c.toNat < 32 ∨ c = '<' ∨ c = '>' ∨ c = '&') := by
  simp only [goodChar, Bool.and_eq_true, Bool.not_eq_true',
    decide_eq_false_iff_not, decide_eq_true_eq] at h
  obtain ⟨⟨⟨⟨⟨⟨h1, h2⟩, h3⟩, h4⟩, h5⟩, h6⟩, h7⟩ := h
  refine ⟨h3, h4, ?_, ?_, ?_, ?_⟩
  · intro e
    subst e
    simp at h1
  · intro e
    subst e
    simp at h1
  · intro e
    subst e
    simp at h1
  · push_neg
    exact ⟨by omega, h5, h6, h7⟩

theorem escChar_of_good (c : Char) (h : goodChar c = true) : escChar c = [c] := by
  obtain ⟨h1, h2, h3, h4, h5, h6⟩ := goodChar_spec c h
  simp [escChar, h1, h2, h3, h4, h5, h6]

theorem escapeJson_of_good (s : Str) (h : goodStr s = true) : escapeJson s = s := by
  induction s with
  | nil => simp [escapeJson]
  | cons c rest ih =>
      simp only [goodStr, List.all_cons, Bool.and_eq_true] at h
      have hrest : goodStr rest = true := h.2
      simp [escapeJson, escChar_of_good c h.1] at ih ⊢
      simpa [escapeJson] using ih hrest

theorem strLit_append_good (s rest : Str) (hs : goodStr s = true) :
    strLit (s ++ '"' :: rest) = some (s, rest) := by
  induction s with
  | nil =>
      rw [List.nil_append, strLit.eq_def]
      simp
  | cons c s' ih =>
      simp only [goodStr, List.all_cons, Bool.and_eq_true] at hs
      obtain ⟨h1, h2, _, _, _, _⟩ := goodChar_spec c hs.1
      have hrec := ih hs.2
      rw [List.cons_append, strLit.eq_def]
      simp [h1, h2, hrec]

theorem hdrMembers_typ (fuel : Nat) (hf : 1 ≤ fuel) (T : Str)
    (hT : goodStr T = true) (h : Header) :
    hdrMembers fuel
      ('"' :: 't' :: 'y' :: 'p' :: '"' :: ':' :: '"' :: (T ++ '"' :: ['}'])) h =
      some { h with contentType := T } := by
  obtain ⟨m, rfl⟩ : ∃ m, fuel = m + 1 := ⟨fuel - 1, by omega⟩
  rw [hdrMembers.eq_def]
  have st1 := strLit_append_good ['t', 'y', 'p']
    (':' :: '"' :: (T ++ '"' :: ['}'])) (by decide)
  have st2 := strLit_append_good T ['}'] hT
  simp only [List.cons_append, List.nil_append] at st1
  simp [skipWs, st1, st2, cbrace,
    show ¬((['t', 'y', 'p'] : Str) = ['a', 'l', 'g']) by decide]

theorem hdrMembers_alg_typ (fuel : Nat) (hf : 2 ≤ fuel) (A T : Str)
    (hA : goodStr A = true) (hT : goodStr T = true) (h : Header) :
    hdrMembers fuel
      ('"' :: 'a' :: 'l' :: 'g' :: '"' :: ':' :: '"' :: (A ++ '"' :: ',' ::
        '"' :: 't' :: 'y' :: 'p' :: '"' :: ':' :: '"' :: (T ++ '"' :: ['}']))) h =
      some ⟨A, T⟩ := by
  obtain ⟨m, rfl⟩ : ∃ m, fuel = m + 1 := ⟨fuel - 1, by omega⟩
  rw [hdrMembers.eq_def]
  have st1 := strLit_append_good ['a', 'l', 'g']
    (':' :: '"' :: (A ++ '"' :: ',' ::
      '"' :: 't' :: 'y' :: 'p' :: '"' :: ':' :: '"' :: (T ++ '"' :: ['}'])))
    (by decide)
  have st2 := strLit_append_good A
    (',' :: '"' :: 't' :: 'y' :: 'p' :: '"' :: ':' :: '"' :: (T ++ '"' :: ['}'])) hA
  have hrec := hdrMembers_typ m (by omega) T hT { h with algorithm := A }
  simp only [List.cons_append, List.nil_append] at st1
  simp [skipWs, st1, st2, hrec]

/-- The explicit character list the encoder emits for a header whose
fields need no JSON escaping. -/
theorem headerToJson_explicit (hd : Header)
    (hA : goodStr hd.algorithm = true) (hT : goodStr hd.contentType = true) :
    headerToJson hd =
      '\x7b' :: '"' :: 'a' :: 'l' :: 'g' :: '"' :: ':' :: '"' ::
        (hd.algorithm ++ '"' :: ',' :: '"' :: 't' :: 'y' :: 'p' :: '"' :: ':' ::
          '"' :: (hd.contentType ++ '"' :: ['}'])) := by
  simp [headerToJson, jsonQuote, escapeJson_of_good _ hA,
    escapeJson_of_good _ hT, obrace, cbrace,
    show escapeJson ['a', 'l', 'g'] = ['a', 'l', 'g'] from rfl,
    show escapeJson ['t', 'y', 'p'] = ['t', 'y', 'p'] from rfl]

/-- Parsing the header JSON the encoder emitted recovers the header. -/
theorem headerFromJson_headerToJson (hd : Header)
    (hA : goodStr hd.algorithm = true) (hT : goodStr hd.contentType = true) :
    headerFromJson (headerToJson hd) = some hd := by
  have hform := headerToJson_explicit hd hA hT
  obtain ⟨A, T⟩ := hd
  simp only [Header.algorithm] at hA
  simp only [Header.contentType] at hT
  simp only [Header.algorithm, Header.contentType] at hform
  rw [hform]
  simp only [headerFromJson]
  simp [skipWs, obrace, cbrace]
  exact hdrMembers_alg_typ _ (by omega) A T hA hT _

theorem goodChar_toNat_lt (c : Char) (h : goodChar c = true) : c.toNat < 256 := by
  simp only [goodChar, Bool.and_eq_true, decide_eq_true_eq] at h
  omega

theorem headerToJson_bytes_lt (hd : Header)
    (hA : goodStr hd.algorithm = true) (hT : goodStr hd.contentType = true) :
    ∀ c ∈ headerToJson hd, c.toNat < 256 := by
  rw [headerToJson_explicit hd hA hT]
  intro c hc
  have hgood : ∀ x ∈ hd.algorithm, goodChar x = true := List.all_eq_true.mp hA
  have hgoodT : ∀ x ∈ hd.contentType, goodChar x = true := List.all_eq_true.mp hT
  simp only [List.mem_cons, List.mem_append, List.not_mem_nil, or_false] at hc
  rcases hc with h|h|h|h|h|h|h|h|h|h|h|h|h|h|h|h|h|h|h|h|h <;> first
    | (subst h; decide)
    | exact goodChar_toNat_lt c (hgood c h)
    | exact goodChar_toNat_lt c (hgoodT c h)

theorem natBE_lt (k x : Nat) : ∀ b ∈ natBE k x, b < 256 := by
  induction k generalizing x with
  | zero => simp [natBE]
  | succ k ih =>
      intro b hb
      simp only [natBE, List.mem_append, List.mem_singleton] at hb
      rcases hb with h | h
      · exact ih _ b h
      · subst h; omega

theorem words_foldr_natBE_lt (k : Nat) (ws : List Nat) :
    ∀ b ∈ ws.foldr (fun wd acc => natBE k wd ++ acc) [], b < 256 := by
  induction ws with
  | nil => simp
  | cons w ws ih =>
      intro b hb
      simp only [List.foldr_cons, List.mem_append] at hb
      rcases hb with h | h
      · exact natBE_lt k w b h
      · exact ih b h

theorem sha256_bytes_lt (m : Bytes) : ∀ b ∈ sha256 m, b < 256 := by
  simp only [sha256]
  exact words_foldr_natBE_lt 4 _

theorem sha512_bytes_lt (m : Bytes) : ∀ b ∈ sha512 m, b < 256 := by
  simp only [sha512]
  exact words_foldr_natBE_lt 8 _

theorem sha384_bytes_lt (m : Bytes) : ∀ b ∈ sha384 m, b < 256 := by
  simp only [sha384]
  intro b hb
  exact words_foldr_natBE_lt 8 _ b (List.mem_of_mem_take hb)

theorem hmac_bytes_lt (hf : HashFn) (key msg : Bytes)
    (hout : ∀ m, ∀ b ∈ hf.f m, b < 256) : ∀ b ∈ hmac hf key msg, b < 256 := by
  simp only [hmac]
  exact hout _

theorem map_ofNat_map_toNat (l : Str) :
    (l.map Char.toNat).map Char.ofNat = l := by
  induction l with
  | nil => simp
  | cons c rest ih => simp [ih]

/-- Decoding a well-formed three-segment wire string, fully symbolically:
if the three segments parse and the validator accepts, `Decode` returns the
payload and no error. -/
theorem Decode_wire {α : Type} (dec : Str → Option α) (V : GoValidator α)
    (H P S : Str) (hdrBytes pBytes : Bytes) (hdr : Header) (p : α) (jOut : Jwt α)
    (hNoDotH : '.' ∉ H) (hNoDotP : '.' ∉ P) (hNoDotS : '.' ∉ S)
    (hNoSp : ' ' ∉ (H ++ '.' :: (P ++ '.' :: S)))
    (hHdec : padB64String H = some hdrBytes)
    (hHparse : headerFromJson (hdrBytes.map Char.ofNat) = some hdr)
    (hPdec : padB64String P = some pBytes)
    (hPparse : dec (pBytes.map Char.ofNat) = some p)
    (hVal : V.validate ⟨hdr, H, none, P, S⟩ = (jOut, true, none)) :
    Decode dec V (H ++ '.' :: (P ++ '.' :: S)) = (some p, none) := by
  unfold Decode
  rw [readToken_of_not_mem _ hNoSp]
  unfold parseJWT
  rw [splitDot_append _ _ hNoDotH, splitDot_append _ _ hNoDotP,
    splitDot_of_not_mem _ hNoDotS]
  simp only [List.length_cons, List.length_nil, List.getD_cons_zero,
    List.getD_cons_succ]
  rw [if_neg (by omega)]
  unfold parseHeader
  rw [hHdec]
  dsimp only
  rw [hHparse]
  dsimp only
  unfold parsePayload
  rw [hPdec]
  dsimp only
  rw [hPparse]
  dsimp only [emptyJwt]
  rw [hVal]

/-- The HS validator accepts the token its own `sign` just produced:
matching algorithm, padded-base64 signature, MAC over the captured raws. -/
theorem hsValidate_accepts {α : Type} (hf : HashFn) (alg : Str) (key : Bytes)
    (H P : Str) (hdr : Header) (halg : hdr.algorithm = alg)
    (hmacB : ∀ b ∈ hmac hf key ((H ++ '.' :: P).map Char.toNat), b < 256) :
    hsValidator.validate ⟨alg, some hf, key⟩
      (⟨hdr, H, none, P, b64EncodePadded (hmac hf key ((H ++ '.' :: P).map Char.toNat))⟩ : Jwt α) =
      (⟨hdr, H, none, P, b64EncodePadded (hmac hf key ((H ++ '.' :: P).map Char.toNat))⟩, true, none) := by
  unfold hsValidator.validate
  rw [padTo4_eq_self _ (length_b64EncodePadded_mod4 _)]
  rw [if_neg (show ¬ ((⟨hdr, H, none, P, _⟩ : Jwt α).header.algorithm ≠ alg) by
    simp [halg])]
  rw [b64DecodePadded_b64EncodePadded _ hmacB]
  simp

set_option maxHeartbeats 1000000 in
/-- The full HMAC round trip: decoding a token the encoder just produced
with the same HS validator delivers the payload with no error. -/
theorem hs_roundTrip {α : Type} (enc : α → Str) (dec : Str → Option α)
    (hf : HashFn) (alg : Str) (key : Bytes) (p : α)
    (hcodec : dec (enc p) = some p)
    (hbytes : ∀ c ∈ enc p, c.toNat < 256)
    (hout : ∀ m, ∀ b ∈ hf.f m, b < 256)
    (halg : goodStr alg = true) :
    Decode dec (hsGoValidator enc ⟨alg, some hf, key⟩)
      (Encode enc (hsGoValidator enc ⟨alg, some hf, key⟩) p).1 = (some p, none) := by
  have hEnc : (Encode enc (hsGoValidator enc ⟨alg, some hf, key⟩) p).1 =
      b64NoPad ((headerToJson ⟨alg, "JWT".data⟩).map Char.toNat) ++ '.' ::
      (b64NoPad ((enc p).map Char.toNat) ++ '.' ::
      b64EncodePadded (hmac hf key
        ((b64NoPad ((headerToJson ⟨alg, "JWT".data⟩).map Char.toNat) ++ '.' ::
          b64NoPad ((enc p).map Char.toNat)).map Char.toNat))) := by
    simp only [Encode, hsGoValidator, hsValidator.sign, rawEncode]
    simp [List.cons_append, List.append_assoc]
  rw [hEnc]
  have hHdrB : ∀ b ∈ (headerToJson ⟨alg, "JWT".data⟩).map Char.toNat, b < 256 := by
    intro b hb
    obtain ⟨c, hc, rfl⟩ := List.mem_map.mp hb
    exact headerToJson_bytes_lt ⟨alg, "JWT".data⟩ halg
      (show goodStr "JWT".data = true by decide) c hc
  have hPB : ∀ b ∈ (enc p).map Char.toNat, b < 256 := by
    intro b hb
    obtain ⟨c, hc, rfl⟩ := List.mem_map.mp hb
    exact hbytes c hc
  have hMacB : ∀ b ∈ hmac hf key
      ((b64NoPad ((headerToJson ⟨alg, "JWT".data⟩).map Char.toNat) ++ '.' ::
        b64NoPad ((enc p).map Char.toNat)).map Char.toNat), b < 256 :=
    hmac_bytes_lt hf key _ hout
  have h1 : '.' ∉ b64NoPad ((headerToJson ⟨alg, "JWT".data⟩).map Char.toNat) :=
    fun h => (mem_b64NoPad_ne _ _ h).1 rfl
  have h2 : '.' ∉ b64NoPad ((enc p).map Char.toNat) :=
    fun h => (mem_b64NoPad_ne _ _ h).1 rfl
  have h3 : '.' ∉ b64EncodePadded (hmac hf key
      ((b64NoPad ((headerToJson ⟨alg, "JWT".data⟩).map Char.toNat) ++ '.' ::
        b64NoPad ((enc p).map Char.toNat)).map Char.toNat)) :=
    fun h => (mem_b64EncodePadded_ne _ _ h).1 rfl
  have h4 : ' ' ∉ (b64NoPad ((headerToJson ⟨alg, "JWT".data⟩).map Char.toNat) ++ '.' ::
      (b64NoPad ((enc p).map Char.toNat) ++ '.' ::
      b64EncodePadded (hmac hf key
        ((b64NoPad ((headerToJson ⟨alg, "JWT".data⟩).map Char.toNat) ++ '.' ::
          b64NoPad ((enc p).map Char.toNat)).map Char.toNat)))) := by
    intro h
    rcases List.mem_append.mp h with ha | ha
    · exact (mem_b64NoPad_ne _ _ ha).2.2 rfl
    rcases List.mem_cons.mp ha with hb | hb
    · exact absurd hb (by decide)
    rcases List.mem_append.mp hb with hc | hc
    · exact (mem_b64NoPad_ne _ _ hc).2.2 rfl
    rcases List.mem_cons.mp hc with hd | hd
    · exact absurd hd (by decide)
    · exact (mem_b64EncodePadded_ne _ _ hd).2 rfl
  have h5 := padB64String_b64NoPad _ hHdrB
  have h6 : headerFromJson (((headerToJson ⟨alg, "JWT".data⟩).map Char.toNat).map Char.ofNat) =
      some ⟨alg, "JWT".data⟩ := by
    rw [map_ofNat_map_toNat]
    exact headerFromJson_headerToJson ⟨alg, "JWT".data⟩ halg
      (show goodStr "JWT".data = true by decide)
  have h7 := padB64String_b64NoPad _ hPB
  have h8 : dec (((enc p).map Char.toNat).map Char.ofNat) = some p := by
    rw [map_ofNat_map_toNat]
    exact hcodec
  have h9 := hsValidate_accepts (α := α) hf alg key
    (b64NoPad ((headerToJson ⟨alg, "JWT".data⟩).map Char.toNat))
    (b64NoPad ((enc p).map Char.toNat)) ⟨alg, "JWT".data⟩ rfl hMacB
  exact Decode_wire dec _ _ _ _ _ _ _ _ _ h1 h2 h3 h4 h5 h6 h7 h8 h9

/-- The none-algorithm round trip: sign with the noop validator, decode
with it again; the payload comes back with no error. -/
theorem none_roundTrip {α : Type} (enc : α → Str) (dec : Str → Option α) (p : α)
    (hcodec : dec (enc p) = some p)
    (hbytes : ∀ c ∈ enc p, c.toNat < 256) :
    Decode dec (noneGoValidator (α := α))
      (Encode enc (noneGoValidator (α := α)) p).1 = (some p, none) := by
  have hEnc : (Encode enc (noneGoValidator (α := α)) p).1 =
      b64NoPad ((headerToJson ⟨"none".data, "JWT".data⟩).map Char.toNat) ++ '.' ::
      (b64NoPad ((enc p).map Char.toNat) ++ '.' :: ([] : Str)) := by
    simp only [Encode, noneGoValidator, nonevalidator.sign, rawEncode]
    simp [List.cons_append, List.append_assoc, None']
  rw [hEnc]
  have hHdrB : ∀ b ∈ (headerToJson ⟨"none".data, "JWT".data⟩).map Char.toNat, b < 256 := by
    intro b hb
    obtain ⟨c, hc, rfl⟩ := List.mem_map.mp hb
    exact headerToJson_bytes_lt ⟨"none".data, "JWT".data⟩ (by decide) (by decide) c hc
  have hPB : ∀ b ∈ (enc p).map Char.toNat, b < 256 := by
    intro b hb
    obtain ⟨c, hc, rfl⟩ := List.mem_map.mp hb
    exact hbytes c hc
  have h1 : '.' ∉ b64NoPad ((headerToJson ⟨"none".data, "JWT".data⟩).map Char.toNat) :=
    fun h => (mem_b64NoPad_ne _ _ h).1 rfl
  have h2 : '.' ∉ b64NoPad ((enc p).map Char.toNat) :=
    fun h => (mem_b64NoPad_ne _ _ h).1 rfl
  have h3 : '.' ∉ ([] : Str) := by simp
  have h4 : ' ' ∉ (b64NoPad ((headerToJson ⟨"none".data, "JWT".data⟩).map Char.toNat) ++ '.' ::
      (b64NoPad ((enc p).map Char.toNat) ++ '.' :: ([] : Str))) := by
    intro h
    rcases List.mem_append.mp h with ha | ha
    · exact (mem_b64NoPad_ne _ _ ha).2.2 rfl
    rcases List.mem_cons.mp ha with hb | hb
    · exact absurd hb (by decide)
    rcases List.mem_append.mp hb with hc | hc
    · exact (mem_b64NoPad_ne _ _ hc).2.2 rfl
    rcases List.mem_cons.mp hc with hd | hd
    · exact absurd hd (by decide)
    · simp at hd
  have h5 := padB64String_b64NoPad _ hHdrB
  have h6 : headerFromJson (((headerToJson ⟨"none".data, "JWT".data⟩).map Char.toNat).map Char.ofNat) =
      some ⟨"none".data, "JWT".data⟩ := by
    rw [map_ofNat_map_toNat]
    exact headerFromJson_headerToJson ⟨"none".data, "JWT".data⟩ (by decide) (by decide)
  have h7 := padB64String_b64NoPad _ hPB
  have h8 : dec (((enc p).map Char.toNat).map Char.ofNat) = some p := by
    rw [map_ofNat_map_toNat]
    exact hcodec
  have h9 : (noneGoValidator (α := α)).validate
      ⟨⟨"none".data, "JWT".data⟩,
        b64NoPad ((headerToJson ⟨"none".data, "JWT".data⟩).map Char.toNat), none,
        b64NoPad ((enc p).map Char.toNat), []⟩ =
      (⟨⟨"none".data, "JWT".data⟩,
        b64NoPad ((headerToJson ⟨"none".data, "JWT".data⟩).map Char.toNat), none,
        b64NoPad ((enc p).map Char.toNat), []⟩, true, none) := rfl
  exact Decode_wire dec _ _ _ _ _ _ _ _ _ h1 h2 h3 h4 h5 h6 h7 h8 h9

/-! ## Claim theorems -/

/-- C4: parsing splits the input on `.` and fails with `ErrMalformedToken`
unless exactly 3 fields result; consequently `Decode` fails the same way. -/
theorem c4_parse_requires_three_fields {α : Type} (dec : Str → Option α)
    (V : GoValidator α) (input : Str)
    (h : (splitDot (readToken input)).length ≠ 3) :
    parseJWT dec (readToken input) = (emptyJwt, none, some Err.malformedToken) ∧
    Decode dec V input = (none, some Err.malformedToken) := by
  have hp : parseJWT dec (readToken input) =
      (emptyJwt, none, some Err.malformedToken) := by
    unfold parseJWT
    rw [if_pos h]
  refine ⟨hp, ?_⟩
  unfold Decode
  rw [hp]

/-- C4 witness: the concrete 2-field string "abc.def" is rejected as
malformed. -/
theorem c4_witness :
    (splitDot (readToken "abc.def".data)).length ≠ 3 ∧
    parseJWT unitDec (readToken "abc.def".data) =
      (emptyJwt, none, some Err.malformedToken) ∧
    Decode unitDec constFalseValidator "abc.def".data =
      (none, some Err.malformedToken) := by
  refine ⟨by decide, ?_⟩
  have h := c4_parse_requires_three_fields unitDec constFalseValidator
    "abc.def".data (by decide)
  exact h

/-- C5: a `(false, nil)` verdict from the validator is promoted to
`ErrBadSignature` by the decode façade. -/
theorem c5_false_nil_is_badSignature {α : Type} (dec : Str → Option α)
    (V : GoValidator α) (input : Str) (j jOut : Jwt α) (pv : Option α)
    (hparse : parseJWT dec (readToken input) = (j, pv, none))
    (hval : V.validate j = (jOut, false, none)) :
    Decode dec V input = (pv, some Err.badSignature) := by
  unfold Decode
  rw [hparse]
  dsimp only
  rw [hval]

/-- C5 witness: a concrete parseable token and a validator that returns
`(false, nil)`; `Decode` reports `ErrBadSignature`. -/
theorem c5_witness :
    Decode unitDec constFalseValidator "eyJhbGciOiJub25lIn0.e30.x".data =
      (some (), some Err.badSignature) :=
  c5_false_nil_is_badSignature unitDec constFalseValidator _
    ⟨⟨"none".data, []⟩, "eyJhbGciOiJub25lIn0".data, none, "e30".data, "x".data⟩
    ⟨⟨"none".data, []⟩, "eyJhbGciOiJub25lIn0".data, none, "e30".data, "x".data⟩
    (some ()) (by decide) rfl

/-- C9: the none-algorithm validator validates every token as
`(true, nil)` regardless of payload or signature, in both the final
(part_006) and the keyed (algorithms.go) interface. -/
theorem c9_none_always_valid {α : Type} :
    ∀ (j : Jwt α) (key : Bytes),
      nonevalidator.validate j = (j, true, none) ∧
      nonevalidatorValidateKeyed j key = (j, true, none) :=
  fun _ _ => ⟨rfl, rfl⟩

/-- C10: on an algorithm mismatch the HS validator reports
`(false, ErrAlgorithmNotImplemented)` before any signature work; the
result is the same whatever the signature field holds. -/
theorem c10_hs_algorithm_pinning {α : Type} (v : hsValidator) (j : Jwt α)
    (h : j.header.algorithm ≠ v.algorithm) :
    hsValidator.validate v j = (j, false, some Err.algorithmNotImplemented) ∧
    ∀ sig : Str, hsValidator.validate v { j with signature := sig } =
      ({ j with signature := sig }, false, some Err.algorithmNotImplemented) := by
  constructor
  · unfold hsValidator.validate
    rw [if_pos h]
  · intro sig
    unfold hsValidator.validate
    rw [if_pos (by simpa using h)]

/-- C10 witness: a token declaring "none" meets the HS256 validator. -/
theorem c10_witness :
    hsValidator.validate (NewHSValidator HS256)
      (⟨⟨"none".data, "JWT".data⟩, "AAAA".data, none, "BBBB".data, "sig0".data⟩ : Jwt Unit) =
      (⟨⟨"none".data, "JWT".data⟩, "AAAA".data, none, "BBBB".data, "sig0".data⟩,
        false, some Err.algorithmNotImplemented) :=
  (c10_hs_algorithm_pinning (NewHSValidator HS256)
    ⟨⟨"none".data, "JWT".data⟩, "AAAA".data, none, "BBBB".data, "sig0".data⟩
    (by decide)).1

/-- C3 counterexample: "RS256" is outside every registered set, yet
`NewHSValidator` constructs a validator for it without any error — its
hash function is silently nil — contradicting "constructing a validator
always fails with AlgorithmNotImplemented". -/
theorem c3_counterexample :
    "RS256".data ∉ [HS256, HS384, HS512, None'] ∧
    NewHSValidator "RS256".data =
      { algorithm := "RS256".data, hashFunc := none, Key := [] } :=
  ⟨by decide, rfl⟩

/-- C3 amended: the registry `getvalidator` fails with
`ErrAlgorithmNotImplemented` for every identifier outside its statically
known set {HS256, HS384, HS512, none}, and `NewESValidator` fails
likewise for every identifier other than ES256 — each universal on its
own, so in particular `getvalidator` rejects "ES256" and
`NewESValidator` rejects the HS identifiers and "none". -/
theorem c3_amended_registry_rejects (alg : Str) :
    (alg ∉ [HS256, HS384, HS512, None'] →
      getvalidator alg = (none, some Err.algorithmNotImplemented)) ∧
    (alg ≠ ES256 →
      (NewESValidator alg).2 = some Err.algorithmNotImplemented) := by
  constructor
  · intro hg
    simp only [List.mem_cons, List.not_mem_nil, or_false, not_or] at hg
    obtain ⟨hg1, hg2, hg3, hg4⟩ := hg
    unfold getvalidator
    rw [if_neg hg1, if_neg hg2, if_neg hg3, if_neg hg4]
  · intro he
    unfold NewESValidator
    rw [if_neg he]

/-- C3 witness: the unknown identifier "foo" fails in both constructors,
and the cross-algorithm cases fail too — `getvalidator` rejects "ES256"
and `NewESValidator` rejects "HS256". -/
theorem c3_witness :
    getvalidator "foo".data = (none, some Err.algorithmNotImplemented) ∧
    (NewESValidator "foo".data).2 = some Err.algorithmNotImplemented ∧
    getvalidator ES256 = (none, some Err.algorithmNotImplemented) ∧
    (NewESValidator HS256).2 = some Err.algorithmNotImplemented :=
  ⟨(c3_amended_registry_rejects "foo".data).1 (by decide),
   (c3_amended_registry_rejects "foo".data).2 (by decide),
   (c3_amended_registry_rejects ES256).1 (by decide),
   (c3_amended_registry_rejects HS256).2 (by decide)⟩

/-- C7: evaluating the ECDSA packing of es.go at r = 1, s = 2^255 shows
the variable width: 33 bytes rather than the fixed 64 the spec requires,
while a pair of full-width components packs to 64 — the packed length is
not the same for all (r, s). -/
theorem c7_es_packing_variable_width :
    (esPackSignature 1 (2 ^ 255)).length = 33 ∧
    (esPackSignature (2 ^ 255) (2 ^ 255)).length = 64 ∧
    (esPackSignature 1 (2 ^ 255)).length ≠ (esPackSignature (2 ^ 255) (2 ^ 255)).length := by
  refine ⟨by decide, by decide, by decide⟩

/-- C6 counterexample: with the key absent (`NewHSValidator` leaves a nil
key), the HS256 validator accepts a token signed with the *empty* key
rather than failing closed on every token. -/
theorem c6_counterexample :
    (NewHSValidator HS256).Key = [] ∧
    hsValidator.validate (NewHSValidator HS256) emptyKeyToken =
      (emptyKeyToken, true, none) :=
  ⟨rfl, by decide⟩

/-- C6 amended: with the key absent the HS validator computes the MAC with
the empty key, so it accepts exactly the tokens carrying a valid empty-key
MAC (and hence returns false for every other token); it does not fail
closed unconditionally. -/
theorem c6_amended_absent_key_means_empty_key {α : Type} (hf : HashFn)
    (alg : Str) (j jOut : Jwt α) (e : Option Err)
    (hres : hsValidator.validate ⟨alg, some hf, []⟩ j = (jOut, true, e)) :
    jOut = j ∧ e = none ∧ j.header.algorithm = alg ∧
    b64DecodePadded (padTo4 j.signature) =
      some (hmac hf [] ((j.headerRaw ++ '.' :: j.payloadRaw).map Char.toNat)) := by
  unfold hsValidator.validate at hres
  by_cases halg : j.header.algorithm ≠ alg
  · rw [if_pos halg] at hres
    simp at hres
  · rw [if_neg halg] at hres
    push_neg at halg
    rcases hdec : b64DecodePadded (padTo4 j.signature) with _ | sig
    · rw [hdec] at hres
      simp at hres
    · rw [hdec] at hres
      dsimp only at hres
      have h1 : j = jOut := congrArg Prod.fst hres
      have h2 : decide (sig = hmac hf []
          ((j.headerRaw ++ '.' :: j.payloadRaw).map Char.toNat)) = true :=
        congrArg (fun t => t.2.1) hres
      have h3 : (none : Option Err) = e := congrArg (fun t => t.2.2) hres
      refine ⟨h1.symm, h3.symm, halg, ?_⟩
      exact congrArg some (of_decide_eq_true h2)

/-- C6 amended witness: the empty-key-signed token is accepted, and its
signature indeed decodes to the empty-key MAC. -/
theorem c6_witness :
    emptyKeyToken = emptyKeyToken ∧ (none : Option Err) = none ∧
    emptyKeyToken.header.algorithm = HS256 ∧
    b64DecodePadded (padTo4 emptyKeyToken.signature) =
      some (hmac sha256Fn []
        ((emptyKeyToken.headerRaw ++ '.' :: emptyKeyToken.payloadRaw).map Char.toNat)) :=
  c6_amended_absent_key_means_empty_key sha256Fn HS256 emptyKeyToken
    emptyKeyToken none (by decide)

/-- C1 counterexample: the RS validator's `validate` does not leave the
token alone — on a parsed-style token whose header declares "none" it
overwrites `Header.Algorithm` with its own RS256 and regenerates
`headerRaw`/`payloadRaw` by re-serializing, before any signature check. -/
theorem c1_counterexample :
    (RSValidator.validate unitEnc rsPubValidator rsFrameToken).1.header.algorithm ≠
      rsFrameToken.header.algorithm ∧
    (RSValidator.validate unitEnc rsPubValidator rsFrameToken).1.headerRaw ≠
      rsFrameToken.headerRaw ∧
    (RSValidator.validate unitEnc rsPubValidator rsFrameToken).1.payloadRaw ≠
      rsFrameToken.payloadRaw := by
  refine ⟨by decide, by decide, by decide⟩

/-- C1 amended: the *HS* validator's `validate` never changes the token —
`headerRaw`, `payloadRaw` and `Header.Algorithm` included — and, when the
algorithm matches and the signature decodes, its verdict is exactly the
comparison of the decoded signature against the HMAC over the raw bytes
captured at parse time (the RS validator, by contrast, re-serializes). -/
theorem c1_hs_validate_frame {α : Type} (v : hsValidator) (hf : HashFn)
    (hv : v.hashFunc = some hf) (j : Jwt α) :
    (hsValidator.validate v j).1 = j ∧
    (j.header.algorithm = v.algorithm →
      ∀ sig, b64DecodePadded (padTo4 j.signature) = some sig →
        hsValidator.validate v j =
          (j, decide (sig = hmac hf v.Key
            ((j.headerRaw ++ '.' :: j.payloadRaw).map Char.toNat)), none)) := by
  constructor
  · unfold hsValidator.validate
    by_cases halg : j.header.algorithm ≠ v.algorithm
    · rw [if_pos halg]
    · rw [if_neg halg]
      rcases b64DecodePadded (padTo4 j.signature) with _ | sig
      · rfl
      · rcases hhf : v.hashFunc with _ | hf2
        · rfl
        · rfl
  · intro halg sig hsig
    unfold hsValidator.validate
    rw [if_neg (by simp [halg]), hsig]
    dsimp only
    rw [hv]

/-- C1 witness: the repository's own TestHSvalidate token and validator;
the hypotheses hold concretely and the frame property follows. -/
theorem c1_witness :
    ((hsValidator.validate ⟨HS256, some sha256Fn, bogokey⟩ hsTestToken).1 = hsTestToken ∧
    (hsTestToken.header.algorithm = HS256 →
      ∀ sig, b64DecodePadded (padTo4 hsTestToken.signature) = some sig →
        hsValidator.validate ⟨HS256, some sha256Fn, bogokey⟩ hsTestToken =
          (hsTestToken, decide (sig = hmac sha256Fn bogokey
            ((hsTestToken.headerRaw ++ '.' :: hsTestToken.payloadRaw).map Char.toNat)), none))) ∧
    hsTestToken.header.algorithm = HS256 ∧
    b64DecodePadded (padTo4 hsTestToken.signature) =
      some ((b64DecodePadded (padTo4 hsTestToken.signature)).getD []) :=
  ⟨c1_hs_validate_frame ⟨HS256, some sha256Fn, bogokey⟩ sha256Fn rfl hsTestToken,
   by decide, by decide⟩

/-- C8 counterexample: the HS256-encoded token for the empty claims object
under key "bogokey" — byte-identical to the repository's own
TestEncodingSigning vector — carries a `=` padding character in its
signature segment. -/
theorem c8_counterexample :
    (Encode unitEnc (hsGoValidator unitEnc ⟨HS256, some sha256Fn, bogokey⟩) ()).1 =
      "eyJhbGciOiJIUzI1NiIsInR5cCI6IkpXVCJ9.e30.UGgJ_8f7TlqazSojqRAKzMJ0SUWJCJJ_9jDHe5nrhto=".data ∧
    '=' ∈ (splitDot
      "eyJhbGciOiJIUzI1NiIsInR5cCI6IkpXVCJ9.e30.UGgJ_8f7TlqazSojqRAKzMJ0SUWJCJJ_9jDHe5nrhto=".data).getD 2 [] := by
  refine ⟨by decide, by decide⟩

/-- C8 amended: in every encoded token the header and payload segments are
unpadded base64url (no `=` anywhere in them); the signature segment is
whatever the validator's `sign` stored, which for the HS family is padded
base64 and may contain `=`. -/
theorem c8_amended_header_payload_unpadded {α : Type} (enc : α → Str)
    (V : GoValidator α) (p : α) (j1 : Jwt α)
    (hsign : V.sign ⟨⟨[], "JWT".data⟩, [], some p, [], []⟩ = (j1, none)) :
    (Encode enc V p).1 =
      (rawEncode enc j1).2.1 ++ '.' :: ((rawEncode enc j1).2.2 ++ '.' :: j1.signature) ∧
    '=' ∉ (rawEncode enc j1).2.1 ∧ '=' ∉ (rawEncode enc j1).2.2 := by
  refine ⟨?_, fun h => (mem_b64NoPad_ne _ _ h).2.1 rfl,
    fun h => (mem_b64NoPad_ne _ _ h).2.1 rfl⟩
  unfold Encode
  dsimp only
  rw [hsign]
  dsimp only
  simp [rawEncode]

/-- C8 amended witness: the none validator's signing step concretely. -/
theorem c8_witness :
    (Encode unitEnc (noneGoValidator (α := Unit)) ()).1 =
      (rawEncode unitEnc (⟨⟨None', "JWT".data⟩, [], some (), [], []⟩ : Jwt Unit)).2.1 ++ '.' ::
        ((rawEncode unitEnc (⟨⟨None', "JWT".data⟩, [], some (), [], []⟩ : Jwt Unit)).2.2 ++ '.' ::
          (⟨⟨None', "JWT".data⟩, [], some (), [], []⟩ : Jwt Unit).signature) ∧
    '=' ∉ (rawEncode unitEnc (⟨⟨None', "JWT".data⟩, [], some (), [], []⟩ : Jwt Unit)).2.1 ∧
    '=' ∉ (rawEncode unitEnc (⟨⟨None', "JWT".data⟩, [], some (), [], []⟩ : Jwt Unit)).2.2 :=
  c8_amended_header_payload_unpadded unitEnc (noneGoValidator (α := Unit)) ()
    ⟨⟨None', "JWT".data⟩, [], some (), [], []⟩ rfl

/-- C2 counterexample: the RS256 round trip fails — the encoder writes an
`=`-trimmed signature but the RS validator decodes it with the strict
padded alphabet, so decoding the freshly encoded empty-claims token
reports a corrupt-base64 error instead of returning the payload. -/
theorem c2_counterexample :
    Decode unitDec (rsGoValidator unitEnc rsPubValidator)
      (Encode unitEnc (rsGoValidator unitEnc rsPrivValidator) ()).1 =
      (some (), some Err.corruptBase64) ∧
    Decode unitDec (rsGoValidator unitEnc rsPubValidator)
      (Encode unitEnc (rsGoValidator unitEnc rsPrivValidator) ()).1 ≠
      (some (), none) := by
  have h : Decode unitDec (rsGoValidator unitEnc rsPubValidator)
      (Encode unitEnc (rsGoValidator unitEnc rsPrivValidator) ()).1 =
      (some (), some Err.corruptBase64) := by decide
  refine ⟨h, by rw [h]; decide⟩

/-- C2 amended: the encode/decode round trip holds for every HS-family
validator and for the none validator (given the external JSON codec's
round trip on the payload); it fails for the RS and ES validators. -/
theorem c2_amended_roundTrip {α : Type} (enc : α → Str) (dec : Str → Option α)
    (p : α) (hcodec : dec (enc p) = some p)
    (hbytes : ∀ c ∈ enc p, c.toNat < 256) :
    (∀ (hf : HashFn) (key : Bytes) (alg : Str),
      (∀ m, ∀ b ∈ hf.f m, b < 256) → goodStr alg = true →
      Decode dec (hsGoValidator enc ⟨alg, some hf, key⟩)
        (Encode enc (hsGoValidator enc ⟨alg, some hf, key⟩) p).1 = (some p, none)) ∧
    Decode dec (noneGoValidator (α := α))
      (Encode enc (noneGoValidator (α := α)) p).1 = (some p, none) :=
  ⟨fun hf key alg hout halg => hs_roundTrip enc dec hf alg key p hcodec hbytes hout halg,
   none_roundTrip enc dec p hcodec hbytes⟩

/-- C2 witness: the concrete HS256/"bogokey" and none round trips on the
empty claims object. -/
theorem c2_witness :
    Decode unitDec (hsGoValidator unitEnc ⟨HS256, some sha256Fn, bogokey⟩)
      (Encode unitEnc (hsGoValidator unitEnc ⟨HS256, some sha256Fn, bogokey⟩) ()).1 =
      (some (), none) ∧
    Decode unitDec (noneGoValidator (α := Unit))
      (Encode unitEnc (noneGoValidator (α := Unit)) ()).1 = (some (), none) :=
  ⟨(c2_amended_roundTrip unitEnc unitDec () (by decide) (by decide)).1
      sha256Fn bogokey HS256 (fun m => sha256_bytes_lt m) (by decide),
   (c2_amended_roundTrip unitEnc unitDec () (by decide) (by decide)).2⟩

end Jwtv
